import Mathlib

/-!
Verification of the hackrf_emitter signal-synthesis core against its
natural-language specification.  The Python sources under
`backend/rf_workflows/` are shallowly embedded: Python unbounded ints become
`Nat`/`Int`, Python byte strings become `List Nat`, masking with `0xFFFF` etc.
is kept explicit, and every definition mirrors the control flow of the
function it is named after.
-/

set_option maxRecDepth 8000

/-! ## ELRSProtocol._calculate_crc16 and crc16_python.crc16ccitt (claim C9)

Embeddings of `elrs_protocol.py` lines 194-206 and `crc16_python.py` lines
32-54.  Both run the same inner 8-round shift-and-XOR loop with polynomial
`0x1021`; the ELRS copy masks the register with `0xFFFF` after every round,
the `crc16ccitt` copy masks once per byte, after the 8 rounds. -/

namespace ELRSProtocol

/-- One round of the inner loop, before any masking:
`if crc & 0x8000: crc = (crc << 1) ^ 0x1021 else: crc <<= 1`. -/
def crc16Round (crc : Nat) : Nat :=
  if crc &&& 0x8000 ≠ 0 then (crc <<< 1) ^^^ 0x1021 else crc <<< 1

/-- One round of the ELRS inner loop: the round above followed by the
`crc &= 0xFFFF` that `_calculate_crc16` performs after every round. -/
def crc16RoundMasked (crc : Nat) : Nat :=
  (crc16Round crc) &&& 0xFFFF

/-- `n` rounds of the masked inner loop, as in `ELRSProtocol._calculate_crc16`. -/
def crc16RoundsMasked : Nat → Nat → Nat
  | 0, crc => crc
  | n + 1, crc => crc16RoundsMasked n (crc16RoundMasked crc)

/-- `n` rounds of the unmasked inner loop, as in `crc16ccitt`. -/
def crc16Rounds : Nat → Nat → Nat
  | 0, crc => crc
  | n + 1, crc => crc16Rounds n (crc16Round crc)

/-- Embedding of `ELRSProtocol._calculate_crc16` (`elrs_protocol.py` 194-206):
start from `0xFFFF`; per byte, XOR `byte << 8` into the register, then run 8
shift-and-XOR rounds masking to 16 bits after each round. -/
def calculate_crc16 (data : List Nat) : Nat :=
  data.foldl (fun crc byte => crc16RoundsMasked 8 (crc ^^^ (byte <<< 8))) 0xFFFF

end ELRSProtocol

namespace Crc16Python

/-- Embedding of `crc16_python.crc16ccitt` (`crc16_python.py` 32-54): the same
per-byte loop, but `crc &= 0xFFFF` happens once per byte, after the 8 rounds. -/
def crc16ccitt (data : List Nat) (initial_value : Nat) : Nat :=
  data.foldl
    (fun crc byte => (ELRSProtocol.crc16Rounds 8 (crc ^^^ (byte <<< 8))) &&& 0xFFFF)
    initial_value

end Crc16Python

namespace ELRSProtocol

lemma mask_eq_mod (x : Nat) : x &&& 0xFFFF = x % 2 ^ 16 := by
  have h : (0xFFFF : Nat) = 2 ^ 16 - 1 := by norm_num
  rw [h, Nat.and_pow_two_sub_one_eq_mod]

/-- Masking to 16 bits commutes through shift-left-then-XOR. -/
lemma shiftLeft_xor_mask (c k : Nat) :
    ((c <<< 1) ^^^ k) &&& 0xFFFF = (((c &&& 0xFFFF) <<< 1) ^^^ k) &&& 0xFFFF := by
  rw [mask_eq_mod ((c <<< 1) ^^^ k), mask_eq_mod c, mask_eq_mod]
  apply Nat.eq_of_testBit_eq
  intro i
  simp only [Nat.testBit_mod_two_pow, Nat.testBit_xor, Nat.testBit_shiftLeft]
  rcases Nat.lt_or_ge i 16 with hi | hi
  · rcases Nat.eq_zero_or_pos i with hz | hp
    · subst hz; simp
    · have h2 : i - 1 < 16 := by omega
      simp [hi, hp, h2]
  · have hi' : ¬ i < 16 := Nat.not_lt.mpr hi
    simp [hi']

/-- The test bit of the round only depends on the low 16 bits. -/
lemma crc16Round_mask (c : Nat) :
    (crc16Round c) &&& 0xFFFF = crc16RoundMasked (c &&& 0xFFFF) := by
  have hbit : (c &&& 0xFFFF) &&& 0x8000 = c &&& 0x8000 := by
    rw [Nat.and_assoc]
    congr 1
  simp only [crc16RoundMasked, crc16Round, hbit]
  by_cases h : c &&& 0x8000 ≠ 0
  · rw [if_pos h, if_pos h]
    exact shiftLeft_xor_mask c 0x1021
  · rw [if_neg h, if_neg h]
    have := shiftLeft_xor_mask c 0
    simpa using this

lemma crc16Rounds_mask : ∀ (n c : Nat),
    (crc16Rounds n c) &&& 0xFFFF = crc16RoundsMasked n (c &&& 0xFFFF)
  | 0, c => by simp [crc16Rounds, crc16RoundsMasked, Nat.and_assoc]
  | n + 1, c => by
      rw [crc16Rounds, crc16RoundsMasked, crc16Rounds_mask n, crc16Round_mask]

/-- Starting the masked rounds from a masked or unmasked register makes no
difference once at least one round runs. -/
lemma crc16RoundsMasked_mask (n c : Nat) :
    crc16RoundsMasked (n + 1) c = crc16RoundsMasked (n + 1) (c &&& 0xFFFF) := by
  show crc16RoundsMasked n (crc16RoundMasked c)
      = crc16RoundsMasked n (crc16RoundMasked (c &&& 0xFFFF))
  rw [← crc16Round_mask c]
  rfl

/-- The per-byte step of `_calculate_crc16` agrees with the per-byte step of
`crc16ccitt`. -/
lemma crc16_byte_step_eq (crc byte : Nat) :
    crc16RoundsMasked 8 (crc ^^^ (byte <<< 8))
      = (crc16Rounds 8 (crc ^^^ (byte <<< 8))) &&& 0xFFFF := by
  rw [crc16Rounds_mask]
  exact crc16RoundsMasked_mask 7 (crc ^^^ (byte <<< 8))

lemma crc16RoundsMasked_lt : ∀ (n c : Nat), crc16RoundsMasked (n + 1) c < 0x10000
  | 0, c => by
      show (crc16Round c) &&& 0xFFFF < 0x10000
      have := Nat.and_le_right (n := crc16Round c) (m := 0xFFFF)
      omega
  | n + 1, c => crc16RoundsMasked_lt n (crc16RoundMasked c)

lemma calculate_crc16_foldl_lt :
    ∀ (data : List Nat) (crc : Nat), crc < 0x10000 →
      data.foldl (fun crc byte => crc16RoundsMasked 8 (crc ^^^ (byte <<< 8))) crc
        < 0x10000
  | [], _crc, h => h
  | _b :: rest, _crc, _ =>
      calculate_crc16_foldl_lt rest _ (crc16RoundsMasked_lt 7 _)

end ELRSProtocol

/-- Claim C9: the two CRC-16 implementations agree and match the CCITT
definition: for every byte sequence `d`, `ELRSProtocol._calculate_crc16 d`
equals `crc16ccitt d` with its default initial value `0xFFFF`, the result is
always in `[0, 0xFFFF]`, and on the standard CCITT-FALSE check input
`"123456789"` it yields the reference check value `0x29B1` (polynomial
`0x1021`, initial value `0xFFFF`, MSB-first per-byte bit-shifting). -/
theorem C9_crc16_implementations_agree :
    (∀ data : List Nat,
        ELRSProtocol.calculate_crc16 data = Crc16Python.crc16ccitt data 0xFFFF
        ∧ ELRSProtocol.calculate_crc16 data < 0x10000)
    ∧ ELRSProtocol.calculate_crc16
        [0x31, 0x32, 0x33, 0x34, 0x35, 0x36, 0x37, 0x38, 0x39] = 0x29B1 := by
  constructor
  · intro data
    constructor
    · unfold ELRSProtocol.calculate_crc16 Crc16Python.crc16ccitt
      congr 1
      funext crc byte
      exact ELRSProtocol.crc16_byte_step_eq crc byte
    · exact ELRSProtocol.calculate_crc16_foldl_lt data 0xFFFF (by norm_num)
  · decide

/-! ## ADSBProtocol._encode_altitude (claim C7)

Embedding of `adsb_protocol.py` lines 220-229.  Python `//` is floor
division, embedded as `Int.fdiv`; `max(0, min(0xFFF, alt_code))` clamps. -/

namespace ADSBProtocol

/-- Embedding of `ADSBProtocol._encode_altitude`:
`alt_code = (altitude_ft + 1000) // 25; return max(0, min(0xFFF, alt_code))`. -/
def encode_altitude (altitude_ft : Int) : Int :=
  let alt_code := (altitude_ft + 1000).fdiv 25
  max 0 (min 0xFFF alt_code)

end ADSBProtocol

/-- Claim C7: ADS-B altitude encoding clamps instead of wrapping: for every
integer `altitude_ft`, `_encode_altitude` returns `(altitude_ft + 1000)`
floor-divided by 25 and clamped into `[0, 0xFFF]`; every input below
-1000 ft encodes to 0, every input whose quotient exceeds the 12-bit maximum
encodes to `0xFFF`, and the result always fits in 12 bits. -/
theorem C7_altitude_encoding_clamps (altitude_ft : Int) :
    0 ≤ ADSBProtocol.encode_altitude altitude_ft
    ∧ ADSBProtocol.encode_altitude altitude_ft ≤ 0xFFF
    ∧ (altitude_ft < -1000 → ADSBProtocol.encode_altitude altitude_ft = 0)
    ∧ (0xFFF < (altitude_ft + 1000).fdiv 25 →
        ADSBProtocol.encode_altitude altitude_ft = 0xFFF)
    ∧ (0 ≤ (altitude_ft + 1000).fdiv 25 → (altitude_ft + 1000).fdiv 25 ≤ 0xFFF →
        ADSBProtocol.encode_altitude altitude_ft = (altitude_ft + 1000).fdiv 25) := by
  unfold ADSBProtocol.encode_altitude
  rw [Int.fdiv_eq_ediv _ (by norm_num)]
  have h25 : ((25 : Int)) ≠ 0 := by norm_num
  refine ⟨?_, ?_, ?_, ?_, ?_⟩
  · simp only []
    omega
  · simp only []
    omega
  · intro h
    have hlt : (altitude_ft + 1000) / 25 < 0 := by omega
    simp only []
    omega
  · intro h
    simp only []
    omega
  · intro h1 h2
    simp only []
    omega

/-- Witness for C7: concrete evaluations through the theorem:
-2000 ft (below -1000) encodes to 0, 3,000,000 ft overflows to 0xFFF, and
10,000 ft encodes to (10000+1000)/25 = 440. -/
theorem C7_altitude_encoding_clamps_witness :
    ADSBProtocol.encode_altitude (-2000) = 0
    ∧ ADSBProtocol.encode_altitude 3000000 = 0xFFF
    ∧ ADSBProtocol.encode_altitude 10000 = 440 := by
  refine ⟨(C7_altitude_encoding_clamps (-2000)).2.2.1 (by decide),
          (C7_altitude_encoding_clamps 3000000).2.2.2.1 (by decide),
          ?_⟩
  have h := (C7_altitude_encoding_clamps 10000).2.2.2.2 (by decide) (by decide)
  rw [h]
  decide

/-! ## ADSBProtocol._encode_adsb_char (claim C10)

Embedding of `adsb_protocol.py` lines 149-158.  Python compares one-character
strings by code point, so `'A' <= char <= 'Z'` is embedded as a comparison of
`Char.toNat` code points. -/

namespace ADSBProtocol

/-- Embedding of `ADSBProtocol._encode_adsb_char`. -/
def encode_adsb_char (char : Char) : Nat :=
  if char = ' ' then 32
  else if 'A'.toNat ≤ char.toNat ∧ char.toNat ≤ 'Z'.toNat then
    char.toNat - 'A'.toNat + 1
  else if '0'.toNat ≤ char.toNat ∧ char.toNat ≤ '9'.toNat then
    char.toNat - '0'.toNat + 48
  else 32

end ADSBProtocol

/-- Claim C10: ADS-B callsign character encoding is total and 6-bit bounded:
for every character `c`, the encoder returns `ord(c) - ord('A') + 1`
(in 1..26) for A-Z, `ord(c) - ord('0') + 48` (in 48..57) for 0-9, and 32 for
space and every other character; the result is always in `[0, 63]`. -/
theorem C10_adsb_char_encoding_total_and_bounded (c : Char) :
    ((65 ≤ c.toNat ∧ c.toNat ≤ 90) →
      ADSBProtocol.encode_adsb_char c = c.toNat - 65 + 1
      ∧ 1 ≤ ADSBProtocol.encode_adsb_char c ∧ ADSBProtocol.encode_adsb_char c ≤ 26)
    ∧ ((48 ≤ c.toNat ∧ c.toNat ≤ 57) →
      ADSBProtocol.encode_adsb_char c = c.toNat - 48 + 48
      ∧ 48 ≤ ADSBProtocol.encode_adsb_char c ∧ ADSBProtocol.encode_adsb_char c ≤ 57)
    ∧ (¬(65 ≤ c.toNat ∧ c.toNat ≤ 90) → ¬(48 ≤ c.toNat ∧ c.toNat ≤ 57) →
      ADSBProtocol.encode_adsb_char c = 32)
    ∧ ADSBProtocol.encode_adsb_char c ≤ 63 := by
  have hA : ('A').toNat = 65 := rfl
  have hZ : ('Z').toNat = 90 := rfl
  have h0 : ('0').toNat = 48 := rfl
  have h9 : ('9').toNat = 57 := rfl
  have hspace : (' ').toNat = 32 := rfl
  unfold ADSBProtocol.encode_adsb_char
  rw [hA, hZ, h0, h9]
  by_cases hs : c = ' '
  · subst hs
    decide
  · rw [if_neg hs]
    by_cases hAZ : 65 ≤ c.toNat ∧ c.toNat ≤ 90
    · rw [if_pos hAZ]
      refine ⟨fun _ => ⟨rfl, by omega, by omega⟩, ?_, ?_, by omega⟩
      · intro h
        omega
      · intro h
        exact absurd hAZ h
    · rw [if_neg hAZ]
      by_cases h09 : 48 ≤ c.toNat ∧ c.toNat ≤ 57
      · rw [if_pos h09]
        refine ⟨fun h => absurd h hAZ, fun _ => ⟨rfl, by omega, by omega⟩,
                ?_, by omega⟩
        intro _ h
        exact absurd h09 h
      · rw [if_neg h09]
        exact ⟨fun h => absurd h hAZ, fun h => absurd h h09,
               fun _ _ => rfl, by omega⟩

/-- Witness for C10: letter, digit, unknown and space characters through the
theorem: `encode('Q') = 17`, `encode('7') = 55`, `encode('~') = 32`. -/
theorem C10_adsb_char_encoding_witness :
    ADSBProtocol.encode_adsb_char 'Q' = 17
    ∧ ADSBProtocol.encode_adsb_char '7' = 55
    ∧ ADSBProtocol.encode_adsb_char '~' = 32 := by
  refine ⟨?_, ?_, ?_⟩
  · have h := ((C10_adsb_char_encoding_total_and_bounded 'Q').1 (by decide)).1
    rw [h]
    decide
  · have h := ((C10_adsb_char_encoding_total_and_bounded '7').2.1 (by decide)).1
    rw [h]
    decide
  · exact (C10_adsb_char_encoding_total_and_bounded '~').2.2.1
      (by decide) (by decide)

/-! ## ADSBProtocol._calculate_crc (claim C6)

Embedding of `adsb_protocol.py` lines 86-105.  The message is a numpy int
array of 112 zero/one entries; Python truthiness `if bit:` is embedded as a
nonzero test.  The CRC loop is compared against an independently defined
GF(2) polynomial remainder `polyMod`. -/

namespace ADSBProtocol

/-- The Mode-S CRC-24 generator polynomial used by `_calculate_crc`. -/
def generator : Nat := 0x1FFF409

/-- Accumulation of `for i, bit in enumerate(message[:88]): if bit:
msg_int |= (1 << (87 - i))`, carrying the running index. -/
def msgInt88Aux : Nat → List Nat → Nat → Nat
  | _, [], acc => acc
  | i, b :: rest, acc =>
      msgInt88Aux (i + 1) rest (if b ≠ 0 then acc ||| (1 <<< (87 - i)) else acc)

/-- The integer assembled from the first 88 entries of the message. -/
def msgInt88 (message : List Nat) : Nat :=
  msgInt88Aux 0 (message.take 88) 0

/-- One iteration of the CRC division loop:
`if msg_int & (1 << (111 - i)): msg_int ^= (generator << (87 - i))`. -/
def divStep (acc i : Nat) : Nat :=
  if acc &&& (1 <<< (111 - i)) ≠ 0 then acc ^^^ (generator <<< (87 - i)) else acc

/-- Embedding of `ADSBProtocol._calculate_crc`: build `msg_int` from the
first 88 bits, shift left by 24, run the 88-step shift-and-XOR division,
return the low 24 bits. -/
def calculate_crc (message : List Nat) : Nat :=
  ((List.range 88).foldl divStep ((msgInt88 message) <<< 24)) &&& 0xFFFFFF

/-- XOR-ing in the generator aligned at the top set bit strictly decreases
any value of degree at least 24 (the generator has degree exactly 24). -/
lemma xor_gen_lt {r : Nat} (h : ¬ r < 2 ^ 24) :
    r ^^^ (generator <<< (r.log2 - 24)) < r := by
  have hne : r ≠ 0 := by
    intro h0
    rw [h0] at h
    exact h (by norm_num)
  have hd24 : 24 ≤ r.log2 := (Nat.le_log2 hne).mpr (Nat.le_of_not_lt h)
  have hr1 : 2 ^ r.log2 ≤ r := Nat.log2_self_le hne
  have hr2 : r < 2 ^ (r.log2 + 1) := Nat.lt_log2_self
  have hs2 : generator <<< (r.log2 - 24) < 2 ^ (r.log2 + 1) := by
    rw [Nat.shiftLeft_eq]
    calc generator * 2 ^ (r.log2 - 24) < 2 ^ 25 * 2 ^ (r.log2 - 24) := by
          have : generator < 2 ^ 25 := by norm_num [generator]
          exact (Nat.mul_lt_mul_right (Nat.two_pow_pos _)).mpr this
      _ = 2 ^ (25 + (r.log2 - 24)) := by rw [Nat.pow_add]
      _ = 2 ^ (r.log2 + 1) := by congr 1; omega
  have hbr : r.testBit r.log2 = true := by
    rw [Nat.testBit_to_div_mod]
    have h1 : r / 2 ^ r.log2 = 1 := by
      have hlow : 1 ≤ r / 2 ^ r.log2 := (Nat.one_le_div_iff (Nat.two_pow_pos _)).mpr hr1
      have hhigh : r / 2 ^ r.log2 < 2 := by
        rw [Nat.div_lt_iff_lt_mul (Nat.two_pow_pos _)]
        calc r < 2 ^ (r.log2 + 1) := hr2
          _ = 2 * 2 ^ r.log2 := by rw [Nat.pow_succ, Nat.mul_comm]
      omega
    rw [h1]
    rfl
  have hbs : (generator <<< (r.log2 - 24)).testBit r.log2 = true := by
    rw [Nat.testBit_shiftLeft]
    have hge : r.log2 ≥ r.log2 - 24 := Nat.sub_le _ _
    have h24 : r.log2 - (r.log2 - 24) = 24 := by omega
    rw [h24]
    simp only [hge, decide_True, Bool.true_and, ge_iff_le, Nat.sub_le, decide_eq_true_eq]
    decide
  have hxt : (r ^^^ (generator <<< (r.log2 - 24))).testBit r.log2 = false := by
    rw [Nat.testBit_xor, hbr, hbs]
    rfl
  have hxlt : r ^^^ (generator <<< (r.log2 - 24)) < 2 ^ (r.log2 + 1) :=
    Nat.xor_lt_two_pow hr2 hs2
  have hfinal : r ^^^ (generator <<< (r.log2 - 24)) < 2 ^ r.log2 := by
    apply Nat.lt_pow_two_of_testBit
    intro i hi
    rcases Nat.eq_or_lt_of_le hi with he | hlt
    · rw [← he]
      exact hxt
    · exact Nat.testBit_lt_two_pow (Nat.lt_of_lt_of_le hxlt (Nat.pow_le_pow_right (by norm_num) hlt))
  exact Nat.lt_of_lt_of_le hfinal hr1

/-- Remainder of GF(2) polynomial division by the Mode-S generator
`0x1FFF409` (degree 24), defined independently of the fixed 88-step loop:
while the value has degree at least 24, XOR in the generator aligned at the
current top set bit. -/
def polyMod (r : Nat) : Nat :=
  if h : r < 2 ^ 24 then r
  else polyMod (r ^^^ (generator <<< (r.log2 - 24)))
termination_by r
decreasing_by
  exact xor_gen_lt h

/-- The polynomial remainder is always below `2^24`. -/
lemma polyMod_lt (r : Nat) : polyMod r < 2 ^ 24 := by
  induction r using Nat.strong_induction_on with
  | _ r ih =>
    rw [polyMod]
    split
    · assumption
    · rename_i h
      exact ih _ (xor_gen_lt h)

lemma mask_eq_mod24 (x : Nat) : x &&& 0xFFFFFF = x % 2 ^ 24 := by
  have h : (0xFFFFFF : Nat) = 2 ^ 24 - 1 := by norm_num
  rw [h, Nat.and_pow_two_sub_one_eq_mod]

/-- Unfolding `polyMod` one step when the top set bit is at position `24 + n`. -/
lemma polyMod_step {r n : Nat} (h1 : 2 ^ (24 + n) ≤ r) (h2 : r < 2 ^ (24 + n + 1)) :
    polyMod r = polyMod (r ^^^ (generator <<< n)) := by
  have hne : r ≠ 0 := by
    have := Nat.two_pow_pos (24 + n)
    omega
  have hd : r.log2 = 24 + n := by
    have hlo : 24 + n ≤ r.log2 := (Nat.le_log2 hne).mpr h1
    have hhi : r.log2 < 24 + n + 1 := (Nat.log2_lt hne).mpr h2
    omega
  rw [polyMod]
  have hnotlt : ¬ r < 2 ^ 24 := by
    have hle : (2 : Nat) ^ 24 ≤ 2 ^ (24 + n) := Nat.pow_le_pow_right (by norm_num) (by omega)
    omega
  rw [dif_neg hnotlt, hd]
  have he : 24 + n - 24 = n := by omega
  rw [he]

/-- If the value already has degree below 24, `polyMod` is the identity. -/
lemma polyMod_base {r : Nat} (h : r < 2 ^ 24) : polyMod r = r := by
  rw [polyMod, dif_pos h]

/-- The last `n` iterations of the division loop compute `polyMod` of any
accumulator of degree below `24 + n`. -/
lemma foldl_divStep_eq_polyMod :
    ∀ (n : Nat), n ≤ 88 → ∀ (acc : Nat), acc < 2 ^ (24 + n) →
      (List.range' (88 - n) n).foldl divStep acc = polyMod acc := by
  intro n
  induction n with
  | zero =>
      intro _ acc hacc
      simp only [List.range']
      rw [List.foldl_nil, polyMod_base hacc]
  | succ n ih =>
      intro hn acc hacc
      rw [List.range'_succ, List.foldl_cons]
      have hidx : 88 - (n + 1) + 1 = 88 - n := by omega
      have hpos : 111 - (88 - (n + 1)) = 24 + n := by omega
      have hshift : 87 - (88 - (n + 1)) = n := by omega
      rw [show divStep acc (88 - (n + 1))
            = if acc &&& (1 <<< (24 + n)) ≠ 0
              then acc ^^^ (generator <<< n) else acc by
        unfold divStep
        rw [hpos, hshift]]
      have htb : acc &&& (1 <<< (24 + n)) ≠ 0 ↔ acc.testBit (24 + n) = true := by
        rw [Nat.one_shiftLeft, Nat.and_two_pow]
        cases h : acc.testBit (24 + n) <;> simp [h, Nat.two_pow_pos, Nat.pos_iff_ne_zero]
      by_cases hb : acc.testBit (24 + n) = true
      · rw [if_pos (htb.mpr hb), hidx]
        have hacc1 : 2 ^ (24 + n) ≤ acc := by
          rcases Nat.lt_or_ge acc (2 ^ (24 + n)) with hlt | hge
          · exact absurd (Nat.testBit_lt_two_pow hlt) (by simp [hb])
          · exact hge
        have hs2 : generator <<< n < 2 ^ (24 + n + 1) := by
          rw [Nat.shiftLeft_eq]
          calc generator * 2 ^ n < 2 ^ 25 * 2 ^ n := by
                have : generator < 2 ^ 25 := by norm_num [generator]
                exact (Nat.mul_lt_mul_right (Nat.two_pow_pos _)).mpr this
            _ = 2 ^ (25 + n) := by rw [Nat.pow_add]
            _ ≤ 2 ^ (24 + n + 1) := by apply Nat.pow_le_pow_right <;> omega
        have hbs : (generator <<< n).testBit (24 + n) = true := by
          rw [Nat.testBit_shiftLeft]
          have hge : 24 + n ≥ n := by omega
          have h24 : 24 + n - n = 24 := by omega
          rw [h24]
          simp only [hge, decide_True, Bool.true_and, ge_iff_le, Nat.sub_le, decide_eq_true_eq]
          decide
        have hxlt : acc ^^^ (generator <<< n) < 2 ^ (24 + n) := by
          apply Nat.lt_pow_two_of_testBit
          intro i hi
          rcases Nat.eq_or_lt_of_le hi with he | hlt
          · rw [← he, Nat.testBit_xor, hb, hbs]
            rfl
          · have hx2 : acc ^^^ (generator <<< n) < 2 ^ (24 + n + 1) :=
              Nat.xor_lt_two_pow hacc hs2
            exact Nat.testBit_lt_two_pow
              (Nat.lt_of_lt_of_le hx2 (Nat.pow_le_pow_right (by norm_num) hlt))
        rw [ih (by omega) _ (Nat.lt_of_lt_of_le hxlt (Nat.pow_le_pow_right (by norm_num) (by omega)))]
        exact (polyMod_step hacc1 hacc).symm
      · rw [if_neg (fun hc => hb (htb.mp hc)), hidx]
        have hacclt : acc < 2 ^ (24 + n) := by
          apply Nat.lt_pow_two_of_testBit
          intro i hi
          rcases Nat.eq_or_lt_of_le hi with he | hlt
          · rw [← he]
            cases h : acc.testBit (24 + n)
            · rfl
            · exact absurd h hb
          · exact Nat.testBit_lt_two_pow
              (Nat.lt_of_lt_of_le hacc (Nat.pow_le_pow_right (by norm_num) hlt))
        exact ih (by omega) acc hacclt

lemma msgInt88Aux_lt :
    ∀ (l : List Nat) (i acc : Nat), acc < 2 ^ 88 → msgInt88Aux i l acc < 2 ^ 88
  | [], _, acc, h => h
  | b :: rest, i, acc, h => by
      unfold msgInt88Aux
      apply msgInt88Aux_lt rest (i + 1)
      by_cases hb : b ≠ 0
      · rw [if_pos hb]
        apply Nat.or_lt_two_pow h
        rw [Nat.one_shiftLeft]
        exact Nat.pow_lt_pow_right (by norm_num) (by omega)
      · rw [if_neg hb]
        exact h

lemma msgInt88_lt (message : List Nat) : msgInt88 message < 2 ^ 88 :=
  msgInt88Aux_lt _ 0 0 (Nat.two_pow_pos 88)

/-- The CRC loop result is exactly the polynomial remainder, and already
below `2^24`, so the final `& 0xFFFFFF` is the identity. -/
lemma calculate_crc_eq_polyMod (message : List Nat) :
    calculate_crc message = polyMod ((msgInt88 message) <<< 24) := by
  unfold calculate_crc
  rw [List.range_eq_range']
  have hm : (msgInt88 message) <<< 24 < 2 ^ (24 + 88) := by
    rw [Nat.shiftLeft_eq]
    calc msgInt88 message * 2 ^ 24 < 2 ^ 88 * 2 ^ 24 :=
          (Nat.mul_lt_mul_right (Nat.two_pow_pos _)).mpr (msgInt88_lt message)
      _ = 2 ^ (24 + 88) := by rw [← Nat.pow_add]
  have h := foldl_divStep_eq_polyMod 88 (by omega) ((msgInt88 message) <<< 24) hm
  rw [show (88 : Nat) - 88 = 0 by omega] at h
  rw [h]
  rw [mask_eq_mod24, Nat.mod_eq_of_lt (polyMod_lt _)]

end ADSBProtocol

/-! ## ADS-B frame encoders (claim C6, CRC placement)

Embeddings of `_encode_aircraft_identification` (lines 107-147),
`_encode_airborne_position` (lines 160-218) and `_encode_velocity`
(lines 268-352).  Each builds the 88 payload bits MSB-first, computes the CRC
of the message with a zeroed CRC field, and writes it MSB-first into bits
88-111.  The ICAO address is taken as the parsed `int(aircraft.icao, 16)`
value; the CPR fields and the trigonometric velocity components are
floating-point computations in the source, so the encoders are parameterized
by those already-computed integers (the position encoder applies the same
17-bit mask the source's `_encode_cpr_*` helpers apply). -/

namespace ADSBProtocol

/-- MSB-first bit field of width `w`:
`message[k + i] = (value >> (w - 1 - i)) & 1`. -/
def natBitsMSB (w v : Nat) : List Nat :=
  (List.range w).map (fun i => (v >>> (w - 1 - i)) &&& 1)

/-- `callsign_padded = (aircraft.callsign + "        ")[:8]`. -/
def callsignPadded (callsign : List Char) : List Char :=
  (callsign ++ List.replicate 8 ' ').take 8

/-- The 48 callsign bits: 8 characters, 6 bits each, MSB-first. -/
def callsignBits (callsign : List Char) : List Nat :=
  ((callsignPadded callsign).map
    (fun ch => natBitsMSB 6 (encode_adsb_char ch))).flatten

/-- Embedding of `_encode_aircraft_identification`: DF=17 (5 bits), CA=5
(3 bits), ICAO (24 bits), TC=4 (5 bits), category (3 bits), callsign
(48 bits), then the CRC of the zero-CRC message in bits 88-111. -/
def encode_aircraft_identification (icao category : Nat)
    (callsign : List Char) : List Nat :=
  let body := natBitsMSB 5 17 ++ natBitsMSB 3 5 ++ natBitsMSB 24 icao
    ++ natBitsMSB 5 4 ++ natBitsMSB 3 category ++ callsignBits callsign
  body ++ natBitsMSB 24 (calculate_crc (body ++ List.replicate 24 0))

/-- Embedding of `_encode_airborne_position`: DF=17, CA=5, ICAO, TC=11,
SS=0 (2 bits), SAF=0, encoded altitude (12 bits), T=0, CPR format bit,
17-bit CPR latitude and longitude, then the CRC in bits 88-111. -/
def encode_airborne_position (icao : Nat) (altitude : Int) (odd_even : Nat)
    (lat_cpr lon_cpr : Nat) : List Nat :=
  let body := natBitsMSB 5 17 ++ natBitsMSB 3 5 ++ natBitsMSB 24 icao
    ++ natBitsMSB 5 11 ++ natBitsMSB 2 0 ++ [0]
    ++ natBitsMSB 12 (encode_altitude altitude).toNat ++ [0] ++ [odd_even]
    ++ natBitsMSB 17 (lat_cpr &&& 0x1FFFF) ++ natBitsMSB 17 (lon_cpr &&& 0x1FFFF)
  body ++ natBitsMSB 24 (calculate_crc (body ++ List.replicate 24 0))

/-- Embedding of `_encode_velocity`: DF=17, CA=5, ICAO, TC=19, subtype 1,
intent/reserved bits, east-west and north-south sign/magnitude fields
(magnitudes clamped to 1023), vertical rate sign/magnitude (64 ft/min units,
clamped to 511), 13 reserved bits, then the CRC in bits 88-111. -/
def encode_velocity (icao : Nat) (vel_ew vel_ns vertical_rate : Int) : List Nat :=
  let ew_sign : Nat := if 0 ≤ vel_ew then 0 else 1
  let ew_mag : Int := if 0 ≤ vel_ew then min vel_ew 1023 else min (-vel_ew) 1023
  let ns_sign : Nat := if 0 ≤ vel_ns then 0 else 1
  let ns_mag : Int := if 0 ≤ vel_ns then min vel_ns 1023 else min (-vel_ns) 1023
  let vr_sign : Nat := if 0 ≤ vertical_rate then 0 else 1
  let vr_mag : Int :=
    if 0 ≤ vertical_rate then min (vertical_rate.fdiv 64) 511
    else min ((-vertical_rate).fdiv 64) 511
  let body := natBitsMSB 5 17 ++ natBitsMSB 3 5 ++ natBitsMSB 24 icao
    ++ natBitsMSB 5 19 ++ natBitsMSB 3 1 ++ [0] ++ [0]
    ++ [ew_sign] ++ natBitsMSB 10 ew_mag.toNat
    ++ [ns_sign] ++ natBitsMSB 10 ns_mag.toNat
    ++ [0] ++ [vr_sign] ++ natBitsMSB 9 vr_mag.toNat
    ++ List.replicate 13 0
  body ++ natBitsMSB 24 (calculate_crc (body ++ List.replicate 24 0))

lemma natBitsMSB_length (w v : Nat) : (natBitsMSB w v).length = w := by
  simp [natBitsMSB]

lemma callsignPadded_length (cs : List Char) : (callsignPadded cs).length = 8 := by
  simp [callsignPadded]

lemma join_bits_length : ∀ l : List Char,
    ((l.map (fun ch => natBitsMSB 6 (encode_adsb_char ch))).flatten).length
      = 6 * l.length
  | [] => rfl
  | c :: rest => by
      simp only [List.map_cons, List.flatten_cons, List.length_append,
        natBitsMSB_length, List.length_cons, join_bits_length rest]
      omega

lemma callsignBits_length (cs : List Char) : (callsignBits cs).length = 48 := by
  unfold callsignBits
  rw [join_bits_length, callsignPadded_length]

/-- The CRC only reads the first 88 message entries. -/
lemma calculate_crc_take_88 (m1 m2 : List Nat) (h : m1.take 88 = m2.take 88) :
    calculate_crc m1 = calculate_crc m2 := by
  unfold calculate_crc msgInt88
  rw [h]

/-- Appending anything to an 88-entry body leaves its CRC unchanged. -/
lemma crc_body_append (body tail1 tail2 : List Nat) (h : body.length = 88) :
    calculate_crc (body ++ tail1) = calculate_crc (body ++ tail2) := by
  apply calculate_crc_take_88
  rw [List.take_append_of_le_length (by omega), List.take_append_of_le_length (by omega)]

/-- Any frame of the source's shape (88-bit body, then the CRC of the
zero-padded body) has length 112 and carries the CRC of the whole frame,
MSB-first, in bits 88-111. -/
lemma frame_crc_placement (body : List Nat) (h : body.length = 88) :
    (body ++ natBitsMSB 24 (calculate_crc (body ++ List.replicate 24 0))).length = 112
    ∧ (body ++ natBitsMSB 24 (calculate_crc (body ++ List.replicate 24 0))).drop 88
      = natBitsMSB 24 (calculate_crc
          (body ++ natBitsMSB 24 (calculate_crc (body ++ List.replicate 24 0)))) := by
  constructor
  · simp [List.length_append, h, natBitsMSB_length]
  · have hd : (body ++ natBitsMSB 24
        (calculate_crc (body ++ List.replicate 24 0))).drop 88
        = natBitsMSB 24 (calculate_crc (body ++ List.replicate 24 0)) := by
      rw [show (88 : Nat) = body.length from h.symm, List.drop_left]
    have hcrc : calculate_crc (body ++ natBitsMSB 24
          (calculate_crc (body ++ List.replicate 24 0)))
        = calculate_crc (body ++ List.replicate 24 0) :=
      crc_body_append body _ _ h
    rw [hd, hcrc]

end ADSBProtocol

namespace ADSBProtocol

lemma ident_frame_spec (icao category : Nat) (cs : List Char) :
    (encode_aircraft_identification icao category cs).length = 112
    ∧ (encode_aircraft_identification icao category cs).drop 88
      = natBitsMSB 24
          (calculate_crc (encode_aircraft_identification icao category cs)) := by
  unfold encode_aircraft_identification
  exact frame_crc_placement _
    (by simp [List.length_append, natBitsMSB_length, callsignBits_length])

lemma position_frame_spec (icao : Nat) (altitude : Int)
    (odd_even lat_cpr lon_cpr : Nat) :
    (encode_airborne_position icao altitude odd_even lat_cpr lon_cpr).length = 112
    ∧ (encode_airborne_position icao altitude odd_even lat_cpr lon_cpr).drop 88
      = natBitsMSB 24
          (calculate_crc
            (encode_airborne_position icao altitude odd_even lat_cpr lon_cpr)) := by
  unfold encode_airborne_position
  exact frame_crc_placement _
    (by simp [List.length_append, natBitsMSB_length])

lemma velocity_frame_spec (icao : Nat) (vel_ew vel_ns vertical_rate : Int) :
    (encode_velocity icao vel_ew vel_ns vertical_rate).length = 112
    ∧ (encode_velocity icao vel_ew vel_ns vertical_rate).drop 88
      = natBitsMSB 24
          (calculate_crc (encode_velocity icao vel_ew vel_ns vertical_rate)) := by
  unfold encode_velocity
  exact frame_crc_placement _
    (by simp [List.length_append, natBitsMSB_length, List.length_replicate])

end ADSBProtocol

/-- Claim C6: ADS-B CRC-24 correctness and placement: `_calculate_crc`
returns the 24-bit remainder of GF(2) polynomial division of the first 88
message bits (shifted left by 24) by the Mode-S generator `0x1FFF409`,
ignores bits 88-111 of its input, and each of the three frame encoders
(identification, airborne position, velocity) emits a 112-bit frame whose
bits 88-111 are exactly this CRC of the frame, MSB-first.  The embedding is
a pure function, so repeated invocations on identical input are identical by
construction. -/
theorem C6_adsb_crc24_remainder_and_placement :
    (∀ message : List Nat,
        ADSBProtocol.calculate_crc message
          = ADSBProtocol.polyMod ((ADSBProtocol.msgInt88 message) <<< 24)
        ∧ ADSBProtocol.calculate_crc message < 2 ^ 24)
    ∧ (∀ m1 m2 : List Nat, m1.take 88 = m2.take 88 →
        ADSBProtocol.calculate_crc m1 = ADSBProtocol.calculate_crc m2)
    ∧ (∀ (icao category : Nat) (cs : List Char),
        (ADSBProtocol.encode_aircraft_identification icao category cs).length = 112
        ∧ (ADSBProtocol.encode_aircraft_identification icao category cs).drop 88
          = ADSBProtocol.natBitsMSB 24
              (ADSBProtocol.calculate_crc
                (ADSBProtocol.encode_aircraft_identification icao category cs)))
    ∧ (∀ (icao : Nat) (altitude : Int) (odd_even lat_cpr lon_cpr : Nat),
        (ADSBProtocol.encode_airborne_position
            icao altitude odd_even lat_cpr lon_cpr).length = 112
        ∧ (ADSBProtocol.encode_airborne_position
            icao altitude odd_even lat_cpr lon_cpr).drop 88
          = ADSBProtocol.natBitsMSB 24
              (ADSBProtocol.calculate_crc
                (ADSBProtocol.encode_airborne_position
                  icao altitude odd_even lat_cpr lon_cpr)))
    ∧ (∀ (icao : Nat) (vel_ew vel_ns vertical_rate : Int),
        (ADSBProtocol.encode_velocity icao vel_ew vel_ns vertical_rate).length = 112
        ∧ (ADSBProtocol.encode_velocity icao vel_ew vel_ns vertical_rate).drop 88
          = ADSBProtocol.natBitsMSB 24
              (ADSBProtocol.calculate_crc
                (ADSBProtocol.encode_velocity icao vel_ew vel_ns vertical_rate))) := by
  refine ⟨?_, ADSBProtocol.calculate_crc_take_88,
    ADSBProtocol.ident_frame_spec, ADSBProtocol.position_frame_spec,
    ADSBProtocol.velocity_frame_spec⟩
  intro message
  have h := ADSBProtocol.calculate_crc_eq_polyMod message
  exact ⟨h, by rw [h]; exact ADSBProtocol.polyMod_lt _⟩

/-- Witness for C6: the CRC of an all-ones 112-bit message equals the CRC of
the message with its last 24 bits zeroed, through the first-88-bits-only
conjunct of the theorem. -/
theorem C6_adsb_crc24_witness :
    ADSBProtocol.calculate_crc (List.replicate 112 1)
      = ADSBProtocol.calculate_crc (List.replicate 88 1 ++ List.replicate 24 0) :=
  C6_adsb_crc24_remainder_and_placement.2.1
    (List.replicate 112 1) (List.replicate 88 1 ++ List.replicate 24 0) (by decide)

/-! ## GPSProtocol._generate_ca_code (claim C8)

Embedding of `gps_protocol.py` lines 151-182 with the 32-entry tap table from
lines 66-74.  The two 10-element shift registers hold 0/1 integers; numpy
`g1[1:] = g1[:-1]; g1[0] = feedback` is the cons of the feedback onto the
first nine elements.  `raise ValueError` is embedded as `Except.error`.  The
embedding is a pure function, so two invocations with the same SVID are
identical by construction. -/

namespace GPSProtocol

/-- `CA_CODE_LENGTH = 1023` chips. -/
def CA_CODE_LENGTH : Nat := 1023

/-- The satellite-specific G2 tap table `CA_CODE_TAPS` (svid, (tap1, tap2)). -/
def CA_CODE_TAPS : List (Nat × (Nat × Nat)) :=
  [(1, (2, 6)), (2, (3, 7)), (3, (4, 8)), (4, (5, 9)), (5, (1, 9)),
   (6, (2, 10)), (7, (1, 8)), (8, (2, 9)), (9, (3, 10)), (10, (2, 3)),
   (11, (3, 4)), (12, (5, 6)), (13, (6, 7)), (14, (7, 8)), (15, (8, 9)),
   (16, (9, 10)), (17, (1, 4)), (18, (2, 5)), (19, (3, 6)), (20, (4, 7)),
   (21, (5, 8)), (22, (6, 9)), (23, (1, 3)), (24, (4, 6)), (25, (5, 7)),
   (26, (6, 8)), (27, (7, 9)), (28, (8, 10)), (29, (1, 6)), (30, (2, 7)),
   (31, (3, 8)), (32, (4, 9))]

/-- The chip loop: each iteration emits
`g1[9] ^ g2[tap1-1] ^ g2[tap2-1]` and shifts both registers
(`feedback :: register[:-1]`), with G1 feedback `g1[2] ^ g1[9]` (taps 3, 10)
and G2 feedback `g2[1]^g2[2]^g2[5]^g2[7]^g2[8]^g2[9]` (taps 2,3,6,8,9,10). -/
def caChips (t1 t2 : Nat) : Nat → List Nat → List Nat → List Nat
  | 0, _, _ => []
  | n + 1, g1, g2 =>
      ((g1.getD 9 0) ^^^ (g2.getD (t1 - 1) 0) ^^^ (g2.getD (t2 - 1) 0))
      :: caChips t1 t2 n
          (((g1.getD 2 0) ^^^ (g1.getD 9 0)) :: g1.take 9)
          (((g2.getD 1 0) ^^^ (g2.getD 2 0) ^^^ (g2.getD 5 0) ^^^ (g2.getD 7 0)
            ^^^ (g2.getD 8 0) ^^^ (g2.getD 9 0)) :: g2.take 9)

/-- Embedding of `GPSProtocol._generate_ca_code`: look up the
satellite-specific taps (raising for an unknown SVID), run 1023 iterations of
the two all-ones-initialized 10-bit LFSRs, and convert chips to bipolar form
via `1 - 2 * chip`. -/
def generate_ca_code (svid : Nat) : Except String (List Int) :=
  match CA_CODE_TAPS.lookup svid with
  | none => .error ("Invalid satellite ID: " ++ toString svid)
  | some (t1, t2) =>
      .ok ((caChips t1 t2 CA_CODE_LENGTH
              (List.replicate 10 1) (List.replicate 10 1)).map
            (fun c => 1 - 2 * (Int.ofNat c)))

lemma caChips_length (t1 t2 : Nat) :
    ∀ (n : Nat) (g1 g2 : List Nat), (caChips t1 t2 n g1 g2).length = n
  | 0, _, _ => rfl
  | n + 1, g1, g2 => by
      rw [caChips, List.length_cons, caChips_length t1 t2 n]

lemma xor_le_one {a b : Nat} (ha : a ≤ 1) (hb : b ≤ 1) : a ^^^ b ≤ 1 := by
  interval_cases a <;> interval_cases b <;> decide

lemma getD_le_one : ∀ (l : List Nat), (∀ x ∈ l, x ≤ 1) → ∀ (i : Nat), l.getD i 0 ≤ 1
  | [], _, i => by simp [List.getD]
  | a :: l, h, 0 => h a (List.mem_cons_self a l)
  | a :: l, h, i + 1 =>
      getD_le_one l (fun x hx => h x (List.mem_cons_of_mem a hx)) i

lemma caChips_chip_le_one (t1 t2 : Nat) :
    ∀ (n : Nat) (g1 g2 : List Nat),
      (∀ x ∈ g1, x ≤ 1) → (∀ x ∈ g2, x ≤ 1) →
      ∀ c ∈ caChips t1 t2 n g1 g2, c ≤ 1
  | 0, _, _, _, _, c, hc => absurd hc (List.not_mem_nil c)
  | n + 1, g1, g2, h1, h2, c, hc => by
      rw [caChips] at hc
      rcases List.mem_cons.mp hc with he | hm
      · subst he
        exact xor_le_one (xor_le_one (getD_le_one g1 h1 9) (getD_le_one g2 h2 (t1 - 1)))
          (getD_le_one g2 h2 (t2 - 1))
      · refine caChips_chip_le_one t1 t2 n _ _ ?_ ?_ c hm
        · intro x hx
          rcases List.mem_cons.mp hx with hxe | hxm
          · subst hxe
            exact xor_le_one (getD_le_one g1 h1 2) (getD_le_one g1 h1 9)
          · exact h1 x (List.mem_of_mem_take hxm)
        · intro x hx
          rcases List.mem_cons.mp hx with hxe | hxm
          · subst hxe
            exact xor_le_one (xor_le_one (xor_le_one (xor_le_one
              (xor_le_one (getD_le_one g2 h2 1) (getD_le_one g2 h2 2))
              (getD_le_one g2 h2 5)) (getD_le_one g2 h2 7))
              (getD_le_one g2 h2 8)) (getD_le_one g2 h2 9)
          · exact h2 x (List.mem_of_mem_take hxm)

lemma lookup_none_of_ne {β : Type} (a : Nat) :
    ∀ (l : List (Nat × β)), (∀ p ∈ l, p.1 ≠ a) → l.lookup a = none
  | [], _ => rfl
  | (k, v) :: rest, h => by
      have hk : k ≠ a := h (k, v) (List.mem_cons_self _ _)
      have hba : (a == k) = false := by
        simp only [beq_eq_false_iff_ne, ne_eq]
        exact fun he => hk he.symm
      rw [List.lookup_cons, hba]
      exact lookup_none_of_ne a rest (fun p hp => h p (List.mem_cons_of_mem _ hp))

end GPSProtocol

/-- Claim C8: GPS C/A Gold-code generation: for every satellite ID in 1..32,
`_generate_ca_code` returns a length-1023 sequence with every element in
`{-1, +1}`, produced by the two all-ones-initialized 10-bit LFSRs (G1 taps
3 and 10, G2 taps 2,3,6,8,9,10, chip = G1 output XOR the two
satellite-specific G2 taps from the 32-entry table); any SVID outside the
table raises a `ValueError`. -/
theorem C8_gps_ca_code_well_formed :
    (∀ svid : Nat, 1 ≤ svid → svid ≤ 32 →
      ∃ code : List Int, GPSProtocol.generate_ca_code svid = .ok code
        ∧ code.length = 1023 ∧ ∀ x ∈ code, x = -1 ∨ x = 1)
    ∧ (∀ svid : Nat, ¬(1 ≤ svid ∧ svid ≤ 32) →
      GPSProtocol.generate_ca_code svid
        = .error ("Invalid satellite ID: " ++ toString svid)) := by
  constructor
  · intro svid h1 h2
    have hs : (GPSProtocol.CA_CODE_TAPS.lookup svid).isSome = true := by
      have hb : svid < 33 := by omega
      revert h1
      revert hb
      revert svid
      decide
    obtain ⟨tp, hlk⟩ := Option.isSome_iff_exists.mp hs
    obtain ⟨t1, t2⟩ := tp
    refine ⟨_, by rw [GPSProtocol.generate_ca_code, hlk], ?_, ?_⟩
    · rw [List.length_map, GPSProtocol.caChips_length]
      rfl
    · intro x hx
      obtain ⟨c, hc, hcx⟩ := List.mem_map.mp hx
      have hle : c ≤ 1 := GPSProtocol.caChips_chip_le_one t1 t2 _ _ _
        (by intro y hy; rw [List.eq_of_mem_replicate hy]) 
        (by intro y hy; rw [List.eq_of_mem_replicate hy]) c hc
      have : c = 0 ∨ c = 1 := by omega
      rcases this with h0 | h1
      · right
        rw [← hcx, h0]
        decide
      · left
        rw [← hcx, h1]
        decide
  · intro svid hout
    have hnone : GPSProtocol.CA_CODE_TAPS.lookup svid = none := by
      apply GPSProtocol.lookup_none_of_ne
      intro p hp
      have hb : 1 ≤ p.1 ∧ p.1 ≤ 32 := by
        revert hp
        revert p
        decide
      omega
    rw [GPSProtocol.generate_ca_code, hnone]

/-- Witness for C8: SVID 1 yields a well-formed code and SVID 33 raises,
through the theorem. -/
theorem C8_gps_ca_code_witness :
    (∃ code : List Int, GPSProtocol.generate_ca_code 1 = .ok code
      ∧ code.length = 1023 ∧ ∀ x ∈ code, x = -1 ∨ x = 1)
    ∧ GPSProtocol.generate_ca_code 33
      = .error ("Invalid satellite ID: " ++ toString 33) :=
  ⟨C8_gps_ca_code_well_formed.1 1 (by decide) (by decide),
   C8_gps_ca_code_well_formed.2 33 (by decide)⟩

/-! ## MD5 (used by UniversalSignalCache.get_cache_key and cache_signal)

A complete MD5 over byte lists (RFC 1321), used to embed Python's
`hashlib.md5(...).hexdigest()`.  Strings are ASCII in every cache-key use, so
`String.data.map Char.toNat` coincides with UTF-8 encoding. -/

namespace MD5

/-- Per-round left-rotation amounts. -/
def shiftTable : List Nat :=
  [7, 12, 17, 22, 7, 12, 17, 22, 7, 12, 17, 22, 7, 12, 17, 22,
   5, 9, 14, 20, 5, 9, 14, 20, 5, 9, 14, 20, 5, 9, 14, 20,
   4, 11, 16, 23, 4, 11, 16, 23, 4, 11, 16, 23, 4, 11, 16, 23,
   6, 10, 15, 21, 6, 10, 15, 21, 6, 10, 15, 21, 6, 10, 15, 21]

/-- The binary integer parts of the sines of integers (RFC 1321 T table). -/
def sineTable : List Nat :=
  [0xd76aa478, 0xe8c7b756, 0x242070db, 0xc1bdceee,
   0xf57c0faf, 0x4787c62a, 0xa8304613, 0xfd469501,
   0x698098d8, 0x8b44f7af, 0xffff5bb1, 0x895cd7be,
   0x6b901122, 0xfd987193, 0xa679438e, 0x49b40821,
   0xf61e2562, 0xc040b340, 0x265e5a51, 0xe9b6c7aa,
   0xd62f105d, 0x02441453, 0xd8a1e681, 0xe7d3fbc8,
   0x21e1cde6, 0xc33707d6, 0xf4d50d87, 0x455a14ed,
   0xa9e3e905, 0xfcefa3f8, 0x676f02d9, 0x8d2a4c8a,
   0xfffa3942, 0x8771f681, 0x6d9d6122, 0xfde5380c,
   0xa4beea44, 0x4bdecfa9, 0xf6bb4b60, 0xbebfbc70,
   0x289b7ec6, 0xeaa127fa, 0xd4ef3085, 0x04881d05,
   0xd9d4d039, 0xe6db99e5, 0x1fa27cf8, 0xc4ac5665,
   0xf4292244, 0x432aff97, 0xab9423a7, 0xfc93a039,
   0x655b59c3, 0x8f0ccc92, 0xffeff47d, 0x85845dd1,
   0x6fa87e4f, 0xfe2ce6e0, 0xa3014314, 0x4e0811a1,
   0xf7537e82, 0xbd3af235, 0x2ad7d2bb, 0xeb86d391]

def mod32 (x : Nat) : Nat := x % 2 ^ 32

/-- Bitwise complement within 32 bits. -/
def not32 (x : Nat) : Nat := 0xFFFFFFFF ^^^ x

def rotl32 (x n : Nat) : Nat := mod32 ((x <<< n) ||| (x >>> (32 - n)))

/-- Append the `0x80` byte, zero padding to 56 mod 64, and the 64-bit
little-endian bit length. -/
def padMessage (msg : List Nat) : List Nat :=
  let bitLen := 8 * msg.length
  let padZeros := (119 - msg.length % 64) % 64
  msg ++ [0x80] ++ List.replicate padZeros 0
    ++ (List.range 8).map (fun i => (bitLen >>> (8 * i)) % 256)

/-- Little-endian 32-bit word `j` of a 64-byte chunk. -/
def leWord (chunk : List Nat) (j : Nat) : Nat :=
  (chunk.getD (4 * j) 0) ||| ((chunk.getD (4 * j + 1) 0) <<< 8)
    ||| ((chunk.getD (4 * j + 2) 0) <<< 16) ||| ((chunk.getD (4 * j + 3) 0) <<< 24)

/-- One of the 64 MD5 operations. -/
def chunkRound (chunk : List Nat) (st : Nat × Nat × Nat × Nat) (i : Nat) :
    Nat × Nat × Nat × Nat :=
  let (a, b, c, d) := st
  let fg : Nat × Nat :=
    if i < 16 then ((b &&& c) ||| ((not32 b) &&& d), i)
    else if i < 32 then ((d &&& b) ||| ((not32 d) &&& c), (5 * i + 1) % 16)
    else if i < 48 then (b ^^^ c ^^^ d, (3 * i + 5) % 16)
    else (c ^^^ (b ||| (not32 d)), (7 * i) % 16)
  let f := mod32 (fg.1 + a + sineTable.getD i 0 + leWord chunk fg.2)
  (d, mod32 (b + rotl32 f (shiftTable.getD i 0)), b, c)

/-- Process one 64-byte chunk and add the result into the running state. -/
def processChunk (st : Nat × Nat × Nat × Nat) (chunk : List Nat) :
    Nat × Nat × Nat × Nat :=
  let r := (List.range 64).foldl (chunkRound chunk) st
  (mod32 (st.1 + r.1), mod32 (st.2.1 + r.2.1),
   mod32 (st.2.2.1 + r.2.2.1), mod32 (st.2.2.2 + r.2.2.2))

/-- Split a padded message into 64-byte chunks (structural recursion on a
fuel bound: each step consumes 64 bytes, so `l.length` steps suffice). -/
def splitChunksAux : Nat → List Nat → List (List Nat)
  | 0, _ => []
  | _, [] => []
  | fuel + 1, l => l.take 64 :: splitChunksAux fuel (l.drop 64)

def splitChunks (l : List Nat) : List (List Nat) :=
  splitChunksAux l.length l

/-- The four 32-bit state words of the MD5 of a byte list. -/
def md5State (msg : List Nat) : Nat × Nat × Nat × Nat :=
  (splitChunks (padMessage msg)).foldl processChunk
    (0x67452301, 0xefcdab89, 0x98badcfe, 0x10325476)

def hexDigit : Nat → Char
  | 0 => '0' | 1 => '1' | 2 => '2' | 3 => '3' | 4 => '4'
  | 5 => '5' | 6 => '6' | 7 => '7' | 8 => '8' | 9 => '9'
  | 10 => 'a' | 11 => 'b' | 12 => 'c' | 13 => 'd' | 14 => 'e'
  | _ => 'f'

def byteHex (b : Nat) : List Char := [hexDigit (b / 16 % 16), hexDigit (b % 16)]

def wordLEHex (w : Nat) : List Char :=
  byteHex (w % 256) ++ byteHex ((w >>> 8) % 256)
    ++ byteHex ((w >>> 16) % 256) ++ byteHex ((w >>> 24) % 256)

/-- `hashlib.md5(bytes).hexdigest()`: 32 lowercase hex characters. -/
def hexdigest (msg : List Nat) : String :=
  let st := md5State msg
  String.mk (wordLEHex st.1 ++ wordLEHex st.2.1 ++ wordLEHex st.2.2.1
    ++ wordLEHex st.2.2.2)

/-- ASCII bytes of a string (`str.encode()` for the ASCII strings used here). -/
def strBytes (s : String) : List Nat := s.data.map Char.toNat

end MD5

/-! ## UniversalSignalCache parameter canonicalization (claim C1)

Embedding of `universal_signal_cache.py` lines 173-201
(`_normalize_params` and `get_cache_key`).  Parameter values are modelled by
`PVal`; Python dicts are association lists in insertion order.  Python floats
are modelled as exact decimals `.float m e` with value `m / 10^e`: every
float the repository canonicalizes has a short exact decimal value (30.0,
5e6, 0.8, ...), for which `repr` prints that exact decimal; `floatRepr`
below prints the same digits.  Note that
Python `bool` is a subclass of `int`, so `isinstance(v, (int, float))` in
`_normalize_params` is true for booleans and they are numerically coerced. -/

namespace UniversalSignalCache

/-- A Python scalar or nested dict parameter value. -/
inductive PVal where
  | int : Int → PVal
  | float : Int → Nat → PVal
  | str : String → PVal
  | bool : Bool → PVal
  | dict : List (String × PVal) → PVal

/-- Python `isinstance(v, (int, float))` — true for `bool` as well, since
`bool` is a subclass of `int`. -/
def isNumeric : PVal → Bool
  | .int _ => true
  | .float _ _ => true
  | .bool _ => true
  | _ => false

/-- Python `float(v)` on a numeric value, as a `PVal.float`. -/
def pyFloat : PVal → PVal
  | .int n => .float n 0
  | .float m e => .float m e
  | .bool b => .float (if b then 1 else 0) 0
  | v => v

/-- Python `int(v)` on a numeric value (floats truncate toward zero). -/
def pyInt : PVal → Int
  | .int n => n
  | .float m e => m.tdiv ((10 : Int) ^ e)
  | .bool b => if b then 1 else 0
  | _ => 0

mutual

/-- Per-entry normalization of `_normalize_params`: recurse into dicts; for
numeric values (booleans included) coerce `duration` to float,
`num_satellites` to int, anything else numeric to float; pass the rest
through. -/
def normalizeVal : String → PVal → PVal
  | _, .dict kvs => .dict (normalizeList kvs)
  | k, v =>
      if isNumeric v then
        if k = "duration" then pyFloat v
        else if k = "num_satellites" then .int (pyInt v)
        else pyFloat v
      else v

/-- Embedding of `_normalize_params` over the dict items in insertion order. -/
def normalizeList : List (String × PVal) → List (String × PVal)
  | [] => []
  | (k, v) :: rest => (k, normalizeVal k v) :: normalizeList rest

end

/-- Insertion into a sorted list (used to model the sorted key order that
`json.dumps(..., sort_keys=True)` produces). -/
def insertBy {α : Type} (le : α → α → Bool) (x : α) : List α → List α
  | [] => [x]
  | y :: ys => if le x y then x :: y :: ys else y :: insertBy le x ys

/-- Insertion sort; a stable sort whose result is the nondecreasing
rearrangement, matching Python's `sorted`. -/
def sortBy {α : Type} (le : α → α → Bool) : List α → List α
  | [] => []
  | x :: xs => insertBy le x (sortBy le xs)

/-- Key comparison: Python compares strings by code point, as does the
lexicographic `String` order used here (all keys are ASCII). -/
def keyLe {β : Type} (p q : String × β) : Bool := decide (p.1 ≤ q.1)

/-- JSON string escaping as `json.dumps` performs it (the short escapes, then
`\u00XX` for remaining control characters; keys used by the repository are
plain ASCII identifiers, which pass through unchanged). -/
def escapeChar (c : Char) : List Char :=
  if c = '"' then ['\\', '"']
  else if c = '\\' then ['\\', '\\']
  else if c.toNat = 8 then ['\\', 'b']
  else if c.toNat = 9 then ['\\', 't']
  else if c.toNat = 10 then ['\\', 'n']
  else if c.toNat = 12 then ['\\', 'f']
  else if c.toNat = 13 then ['\\', 'r']
  else if c.toNat < 32 then
    ['\\', 'u', '0', '0', MD5.hexDigit (c.toNat / 16), MD5.hexDigit (c.toNat % 16)]
  else [c]

/-- A JSON string literal. -/
def jsonStr (s : String) : String :=
  "\"" ++ String.mk ((s.data.map escapeChar).flatten) ++ "\""

/-- Remove trailing decimal zeros: the minimal `(m, e)` with the same value. -/
def stripZeros : Int → Nat → Int × Nat
  | m, 0 => (m, 0)
  | m, e + 1 => if m % 10 = 0 then stripZeros (m / 10) e else (m, e + 1)

/-- Python `repr` of a float with exact decimal value `m / 10^e`: the
minimal exact decimal, as `repr` prints for the short-decimal floats the
repository uses (`30.0`, `5000000.0`, `0.8`, ...). -/
def floatRepr (m : Int) (e : Nat) : String :=
  let p := stripZeros m e
  if p.2 = 0 then toString p.1 ++ ".0"
  else
    let sign := if p.1 < 0 then "-" else ""
    let a := p.1.natAbs
    let frs := toString (a % 10 ^ p.2)
    sign ++ toString (a / 10 ^ p.2) ++ "."
      ++ String.mk (List.replicate (p.2 - frs.length) '0') ++ frs

mutual

/-- Embedding of `json.dumps(v, sort_keys=True)` with the default
separators `", "` and `": "`: dict items are serialized and then emitted in
sorted key order (serializing before or after sorting is equivalent, since
serialization is per-item and the comparison uses only the key). -/
def serialize : PVal → String
  | .int n => toString n
  | .float m e => floatRepr m e
  | .str s => jsonStr s
  | .bool b => if b then "true" else "false"
  | .dict kvs =>
      "\x7b" ++ String.intercalate ", "
        ((sortBy keyLe (serializePairs kvs)).map
          (fun p => jsonStr p.1 ++ ": " ++ p.2)) ++ "\x7d"

/-- Serialize each dict item, keeping its key. -/
def serializePairs : List (String × PVal) → List (String × String)
  | [] => []
  | (k, v) :: rest => (k, serialize v) :: serializePairs rest

end

/-- Embedding of `UniversalSignalCache.get_cache_key`:
`md5((signal_type + "_" + protocol + "_" + json.dumps(normalized, sort_keys=True)).encode()).hexdigest()`. -/
def get_cache_key (signal_type protocol : String)
    (parameters : List (String × PVal)) : String :=
  let sorted_params := serialize (.dict (normalizeList parameters))
  let key_string := signal_type ++ "_" ++ protocol ++ "_" ++ sorted_params
  MD5.hexdigest (MD5.strBytes key_string)

mutual

/-- Recursively sort all dict levels by key: the canonical form under which
two parameter maps are considered equal up to key order. -/
def sortRec : PVal → PVal
  | .dict kvs => .dict (sortBy keyLe (sortRecPairs kvs))
  | .int n => .int n
  | .float m e => .float m e
  | .str s => .str s
  | .bool b => .bool b

def sortRecPairs : List (String × PVal) → List (String × PVal)
  | [] => []
  | (k, v) :: rest => (k, sortRec v) :: sortRecPairs rest

end

mutual

/-- Normalization under the claim's (spec's) declared coercion rules:
`duration` to float, `num_satellites` to int, every other numeric field to
float, strings and booleans UNCHANGED. -/
def specNormalizeVal : String → PVal → PVal
  | _, .dict kvs => .dict (specNormalizeList kvs)
  | k, .int n => if k = "num_satellites" then .int n else .float n 0
  | k, .float m e =>
      if k = "num_satellites" then .int (m.tdiv ((10 : Int) ^ e)) else .float m e
  | _, .str s => .str s
  | _, .bool b => .bool b

def specNormalizeList : List (String × PVal) → List (String × PVal)
  | [] => []
  | (k, v) :: rest => (k, specNormalizeVal k v) :: specNormalizeList rest

end

/-- Semantic equivalence under the claim's coercion rules, key order ignored. -/
def specEquiv (a b : List (String × PVal)) : Prop :=
  sortRec (.dict (specNormalizeList a)) = sortRec (.dict (specNormalizeList b))

/-- Semantic equivalence under the coercion rules the code actually applies
(booleans coerced numerically), key order ignored. -/
def codeEquiv (a b : List (String × PVal)) : Prop :=
  sortRec (.dict (normalizeList a)) = sortRec (.dict (normalizeList b))

end UniversalSignalCache

namespace UniversalSignalCache

lemma keyLe_total {β : Type} (p q : String × β) (h : keyLe p q = false) :
    keyLe q p = true := by
  simp only [keyLe, decide_eq_false_iff_not] at h
  simp only [keyLe, decide_eq_true_eq]
  exact le_of_not_le h

instance keyLeTrans {β : Type} :
    IsTrans (String × β) (fun p q => keyLe p q = true) where
  trans a b c h1 h2 := by
    simp only [keyLe, decide_eq_true_eq] at h1 h2 ⊢
    exact le_trans h1 h2

instance keyLtAntisymm {β : Type} :
    IsAntisymm (String × β) (fun p q => p.1 < q.1) where
  antisymm _a _b h1 h2 := absurd h1 (lt_asymm h2)

lemma serializePairs_eq_map : ∀ l : List (String × PVal),
    serializePairs l = l.map (fun p => (p.1, serialize p.2))
  | [] => rfl
  | (k, v) :: rest => by
      rw [serializePairs, List.map_cons, serializePairs_eq_map rest]

lemma sortRecPairs_eq_map : ∀ l : List (String × PVal),
    sortRecPairs l = l.map (fun p => (p.1, sortRec p.2))
  | [] => rfl
  | (k, v) :: rest => by
      rw [sortRecPairs, List.map_cons, sortRecPairs_eq_map rest]

lemma normalizeList_eq_map : ∀ l : List (String × PVal),
    normalizeList l = l.map (fun p => (p.1, normalizeVal p.1 p.2))
  | [] => rfl
  | (k, v) :: rest => by
      rw [normalizeList, List.map_cons, normalizeList_eq_map rest]

lemma map_insertBy {β γ : Type} (f : (String × β) → (String × γ))
    (hf : ∀ p, (f p).1 = p.1) (x : String × β) :
    ∀ l : List (String × β),
      (insertBy keyLe x l).map f = insertBy keyLe (f x) (l.map f)
  | [] => rfl
  | y :: ys => by
      have hk : keyLe (f x) (f y) = keyLe x y := by
        simp only [keyLe, hf]
      rw [insertBy, List.map_cons, insertBy, hk]
      by_cases h : keyLe x y = true
      · rw [if_pos h, if_pos h, List.map_cons, List.map_cons]
      · rw [if_neg h, if_neg h, List.map_cons, map_insertBy f hf x ys]

lemma map_sortBy {β γ : Type} (f : (String × β) → (String × γ))
    (hf : ∀ p, (f p).1 = p.1) :
    ∀ l : List (String × β), (sortBy keyLe l).map f = sortBy keyLe (l.map f)
  | [] => rfl
  | x :: xs => by
      rw [sortBy, List.map_cons, sortBy, ← map_sortBy f hf xs, map_insertBy f hf]

lemma insertBy_perm {α : Type} (le : α → α → Bool) (x : α) :
    ∀ l : List α, (insertBy le x l).Perm (x :: l)
  | [] => List.Perm.refl _
  | y :: ys => by
      rw [insertBy]
      by_cases h : le x y = true
      · rw [if_pos h]
      · rw [if_neg h]
        exact ((insertBy_perm le x ys).cons y).trans (List.Perm.swap x y ys)

lemma sortBy_perm {α : Type} (le : α → α → Bool) :
    ∀ l : List α, (sortBy le l).Perm l
  | [] => List.Perm.refl _
  | x :: xs =>
      (insertBy_perm le x (sortBy le xs)).trans ((sortBy_perm le xs).cons x)

lemma chain'_insertBy {β : Type} (x : String × β) :
    ∀ l : List (String × β),
      List.Chain' (fun p q => keyLe p q = true) l →
      List.Chain' (fun p q => keyLe p q = true) (insertBy keyLe x l)
  | [], _ => List.chain'_singleton x
  | y :: ys, h => by
      rw [insertBy]
      by_cases hxy : keyLe x y = true
      · rw [if_pos hxy]
        exact List.chain'_cons.mpr ⟨hxy, h⟩
      · rw [if_neg hxy]
        have hyx : keyLe y x = true := keyLe_total x y (by simpa using hxy)
        have hrec := chain'_insertBy x ys h.tail
        refine List.chain'_cons'.mpr ⟨?_, hrec⟩
        intro z hz
        cases ys with
        | nil =>
            simp only [insertBy, List.head?_cons, Option.mem_def,
              Option.some.injEq] at hz
            subst hz
            exact hyx
        | cons w ws =>
            rw [insertBy] at hz
            by_cases hxw : keyLe x w = true
            · rw [if_pos hxw] at hz
              simp only [List.head?_cons, Option.mem_def, Option.some.injEq] at hz
              subst hz
              exact hyx
            · rw [if_neg hxw] at hz
              simp only [List.head?_cons, Option.mem_def, Option.some.injEq] at hz
              subst hz
              exact (List.chain'_cons.mp h).1

lemma chain'_sortBy {β : Type} :
    ∀ l : List (String × β),
      List.Chain' (fun p q => keyLe p q = true) (sortBy keyLe l)
  | [] => List.chain'_nil
  | x :: xs => chain'_insertBy x (sortBy keyLe xs) (chain'_sortBy xs)

lemma sortBy_eq_of_chain {β : Type} :
    ∀ l : List (String × β),
      List.Chain' (fun p q => keyLe p q = true) l → sortBy keyLe l = l
  | [], _ => rfl
  | x :: xs, h => by
      rw [sortBy, sortBy_eq_of_chain xs h.tail]
      cases xs with
      | nil => rfl
      | cons y ys =>
          rw [insertBy, if_pos (List.chain'_cons.mp h).1]

lemma sortBy_idem {β : Type} (l : List (String × β)) :
    sortBy keyLe (sortBy keyLe l) = sortBy keyLe l :=
  sortBy_eq_of_chain _ (chain'_sortBy l)

/-- Two permutations of the same items with pairwise-distinct keys sort to
the same list. -/
lemma sortBy_eq_of_perm_nodupkeys {β : Type} (l1 l2 : List (String × β))
    (hperm : l1.Perm l2) (hnodup : (l1.map Prod.fst).Nodup) :
    sortBy keyLe l1 = sortBy keyLe l2 := by
  have hp : (sortBy keyLe l1).Perm (sortBy keyLe l2) :=
    ((sortBy_perm keyLe l1).trans hperm).trans (sortBy_perm keyLe l2).symm
  have hkeys1 : ((sortBy keyLe l1).map Prod.fst).Nodup :=
    (((sortBy_perm keyLe l1).map Prod.fst).nodup_iff).mpr hnodup
  have hkeys2 : ((sortBy keyLe l2).map Prod.fst).Nodup := by
    refine (((sortBy_perm keyLe l2).map Prod.fst).nodup_iff).mpr ?_
    exact ((hperm.map Prod.fst).nodup_iff).mp hnodup
  have hpl : ∀ (l : List (String × β)),
      List.Chain' (fun p q => keyLe p q = true) l →
      (l.map Prod.fst).Nodup →
      List.Pairwise (fun p q : String × β => p.1 < q.1) l := by
    intro l hchain hnd
    have hple : List.Pairwise (fun p q => keyLe p q = true) l :=
      List.chain'_iff_pairwise.mp hchain
    have hpne : List.Pairwise (fun p q : String × β => p.1 ≠ q.1) l :=
      List.pairwise_map.mp hnd
    refine (hple.and hpne).imp ?_
    intro p q hpq
    have hle : p.1 ≤ q.1 := by
      have := hpq.1
      simpa only [keyLe, decide_eq_true_eq] using this
    exact lt_of_le_of_ne hle hpq.2
  exact List.eq_of_perm_of_sorted hp
    (hpl _ (chain'_sortBy l1) hkeys1) (hpl _ (chain'_sortBy l2) hkeys2)

mutual

/-- Serialization only depends on the recursively key-sorted form: sorting
all dict levels first does not change the JSON output. -/
lemma serialize_sortRec : ∀ v : PVal, serialize (sortRec v) = serialize v
  | .int _ => rfl
  | .float _ _ => rfl
  | .str _ => rfl
  | .bool _ => rfl
  | .dict kvs => by
      rw [sortRec, serialize, serialize]
      have h1 : serializePairs (sortBy keyLe (sortRecPairs kvs))
          = sortBy keyLe (serializePairs (sortRecPairs kvs)) := by
        rw [serializePairs_eq_map, serializePairs_eq_map,
          ← map_sortBy (fun p => (p.1, serialize p.2)) (fun _ => rfl)]
      rw [h1, serializePairs_sortRecPairs kvs, sortBy_idem]

lemma serializePairs_sortRecPairs : ∀ l : List (String × PVal),
    serializePairs (sortRecPairs l) = serializePairs l
  | [] => rfl
  | (k, v) :: rest => by
      rw [sortRecPairs, serializePairs, serialize_sortRec v,
        serializePairs_sortRecPairs rest, serializePairs]

end

end UniversalSignalCache

namespace UniversalSignalCache

/-- Canonicalization-equivalent maps produce identical serializations. -/
lemma serialize_eq_of_codeEquiv (a b : List (String × PVal))
    (h : codeEquiv a b) :
    serialize (.dict (normalizeList a)) = serialize (.dict (normalizeList b)) := by
  rw [← serialize_sortRec (.dict (normalizeList a)),
    ← serialize_sortRec (.dict (normalizeList b))]
  exact congrArg serialize h

/-- A key-order permutation of a duplicate-free map canonicalizes equally. -/
lemma codeEquiv_of_perm (a b : List (String × PVal))
    (hnd : (a.map Prod.fst).Nodup) (hperm : a.Perm b) : codeEquiv a b := by
  unfold codeEquiv
  rw [sortRec, sortRec]
  congr 1
  apply sortBy_eq_of_perm_nodupkeys
  · rw [sortRecPairs_eq_map, sortRecPairs_eq_map, normalizeList_eq_map,
      normalizeList_eq_map, List.map_map, List.map_map]
    exact hperm.map _
  · rw [sortRecPairs_eq_map, normalizeList_eq_map, List.map_map, List.map_map]
    exact hnd

end UniversalSignalCache

/-- Counterexample for claim C1: Python `bool` is a subclass of `int`, so
`_normalize_params` coerces booleans numerically; `{x: True}` and `{x: 1}`
receive the same cache key although they are not semantically equivalent
under the claim's declared coercion rules (which leave booleans unchanged).
This refutes the claimed iff in its only-if direction. -/
theorem C1_cache_key_counterexample :
    UniversalSignalCache.get_cache_key "t" "p" [("x", .bool true)]
      = UniversalSignalCache.get_cache_key "t" "p" [("x", .int 1)]
    ∧ ¬ UniversalSignalCache.specEquiv [("x", .bool true)] [("x", .int 1)] := by
  constructor
  · decide
  · intro h
    have h' : UniversalSignalCache.PVal.dict [("x", .bool true)]
        = UniversalSignalCache.PVal.dict [("x", .float 1 0)] := h
    simp only [UniversalSignalCache.PVal.dict.injEq, List.cons.injEq,
      Prod.mk.injEq] at h'
    exact UniversalSignalCache.PVal.noConfusion h'.1.2

/-- Claim C1 (amended): equivalence under the coercion rules the code
actually applies (booleans coerced numerically, `duration` to float,
`num_satellites` to int, other numerics to float, key order ignored) implies
equal cache keys; a key-order permutation of a duplicate-free parameter map
leaves the key unchanged; `{duration: 30}` and `{duration: 30.0}` collide;
`num_satellites` 4 vs 8 produce different keys; and the embedding reproduces
the exact digest CPython computes for the satellite example. -/
theorem C1_cache_key_amended :
    (∀ (st pr : String) (a b : List (String × UniversalSignalCache.PVal)),
        UniversalSignalCache.codeEquiv a b →
        UniversalSignalCache.get_cache_key st pr a
          = UniversalSignalCache.get_cache_key st pr b)
    ∧ (∀ (st pr : String) (a b : List (String × UniversalSignalCache.PVal)),
        (a.map Prod.fst).Nodup → a.Perm b →
        UniversalSignalCache.get_cache_key st pr a
          = UniversalSignalCache.get_cache_key st pr b)
    ∧ UniversalSignalCache.get_cache_key "elrs" "elrs_915" [("duration", .int 30)]
        = UniversalSignalCache.get_cache_key "elrs" "elrs_915"
            [("duration", .float 30 0)]
    ∧ UniversalSignalCache.get_cache_key "gps" "gps_l1" [("num_satellites", .int 4)]
        ≠ UniversalSignalCache.get_cache_key "gps" "gps_l1"
            [("num_satellites", .int 8)]
    ∧ UniversalSignalCache.get_cache_key "gps" "gps_l1" [("num_satellites", .int 4)]
        = "870a24be4f9b408e14f36f5ffc0cbc69" := by
  refine ⟨?_, ?_, by decide, by decide, by decide⟩
  · intro st pr a b h
    show MD5.hexdigest (MD5.strBytes (st ++ "_" ++ pr ++ "_"
        ++ UniversalSignalCache.serialize (.dict (UniversalSignalCache.normalizeList a))))
      = MD5.hexdigest (MD5.strBytes (st ++ "_" ++ pr ++ "_"
        ++ UniversalSignalCache.serialize (.dict (UniversalSignalCache.normalizeList b))))
    rw [UniversalSignalCache.serialize_eq_of_codeEquiv a b h]
  · intro st pr a b hnd hperm
    show MD5.hexdigest (MD5.strBytes (st ++ "_" ++ pr ++ "_"
        ++ UniversalSignalCache.serialize (.dict (UniversalSignalCache.normalizeList a))))
      = MD5.hexdigest (MD5.strBytes (st ++ "_" ++ pr ++ "_"
        ++ UniversalSignalCache.serialize (.dict (UniversalSignalCache.normalizeList b))))
    rw [UniversalSignalCache.serialize_eq_of_codeEquiv a b
      (UniversalSignalCache.codeEquiv_of_perm a b hnd hperm)]

/-- Witness for the amended C1: permuting the two entries of a concrete
duplicate-free map leaves the cache key unchanged, through the theorem. -/
theorem C1_cache_key_amended_witness :
    UniversalSignalCache.get_cache_key "t" "p"
        [("b", .int 1), ("a", .int 2)]
      = UniversalSignalCache.get_cache_key "t" "p"
        [("a", .int 2), ("b", .int 1)] :=
  C1_cache_key_amended.2.1 "t" "p" _ _ (by decide)
    (List.Perm.swap ("a", UniversalSignalCache.PVal.int 2)
      ("b", UniversalSignalCache.PVal.int 1) [])

/-! ## UniversalSignalCache state operations (claims C3, C4, C5)

Sequential embedding of `get_cached_signal` (lines 241-256), `cache_signal`
(lines 270-313) and `get_or_generate_signal` (lines 315-337).  The disk is a
map from path to complete byte content; the in-memory index
(`self.cached_signals`) and the persisted metadata JSON are association
lists from cache key to `CachedSignal`.  `cache_signal` additionally returns
the sequence of observable states (initial, one per written byte prefix,
final) and the file-system operations it performs, so that atomicity claims
can be stated.  Signal data is taken as the already-serialized `bytes`
branch of `cache_signal`; a raised exception is an `Except.error`. -/

namespace UniversalSignalCache

/-- Metadata record mirroring the `CachedSignal` dataclass.  `sample_rate`
is a float in the source, never computed with here, and modelled as an
integer; `file_size_mb` stores the raw byte count (the source stores
`len(bytes)/1e6` as a float for display). -/
structure CachedSignal where
  filename : String
  signal_type : String
  protocol : String
  parameters : List (String × PVal)
  sample_rate : Int
  duration : PVal
  file_size_mb : Nat
  created_time : Nat
  checksum : String

/-- The cache state: disk contents, in-memory index, persisted metadata. -/
structure CacheState where
  fs : List (String × List Int)
  index : List (String × CachedSignal)
  metaFile : List (String × CachedSignal)

/-- The default `cache_dir`. -/
def cacheDir : String := "signal_cache"

/-- `os.path.join(self.cache_dir, filename)`. -/
def filePathOf (filename : String) : String := cacheDir ++ "/" ++ filename

/-- The `.bin` filename `cache_signal` derives from the key. -/
def cacheFilename (signal_type protocol : String)
    (parameters : List (String × PVal)) : String :=
  signal_type ++ "_" ++ protocol ++ "_"
    ++ ((get_cache_key signal_type protocol parameters).take 12) ++ ".bin"

def fileExists (path : String) (fs : List (String × List Int)) : Bool :=
  (fs.lookup path).isSome

/-- Overwrite (or create) a file. -/
def fsWrite (path : String) (bytes : List Int)
    (fs : List (String × List Int)) : List (String × List Int) :=
  (path, bytes) :: fs.filter (fun p => p.1 != path)

/-- Two's-complement byte of a signed 8-bit sample. -/
def sampleByte (i : Int) : Nat := (i % 256).toNat

/-- Embedding of `get_cached_signal`: return the path only when the key is
indexed and its file exists; if indexed with a missing file, delete the
entry and persist the metadata (`save_cache_metadata` writes the current
index); otherwise return nothing. -/
def get_cached_signal (st : CacheState) (signal_type protocol : String)
    (parameters : List (String × PVal)) : Option String × CacheState :=
  match st.index.lookup (get_cache_key signal_type protocol parameters) with
  | some cs =>
      if fileExists (filePathOf cs.filename) st.fs then
        (some (filePathOf cs.filename), st)
      else
        (none, { st with
          index := st.index.filter
            (fun p => p.1 != get_cache_key signal_type protocol parameters)
          metaFile := st.index.filter
            (fun p => p.1 != get_cache_key signal_type protocol parameters) })
  | none => (none, st)

/-- File-system operations performed on the sample file. -/
inductive FsOp where
  | openW (path : String)
  | write (path : String) (bytes : List Int)
  | close (path : String)
  | rename (src dst : String)
deriving DecidableEq

def FsOp.isRename : FsOp → Bool
  | .rename _ _ => true
  | _ => false

/-- Embedding of `cache_signal`: re-check the cache; on a miss, write the
bytes directly to the final path (`open(file_path, 'wb')` + `write`), then
insert the metadata entry and persist it.  Returns the path, the final
state, the observable intermediate states (the post-check state, one state
per partially-written prefix of the bytes, the complete-file state before
the metadata insert, and the final state), and the file operations. -/
def newEntry (signal_type protocol : String) (parameters : List (String × PVal))
    (signal_bytes : List Int) (sample_rate : Int) (now : Nat) : CachedSignal :=
  { filename := cacheFilename signal_type protocol parameters
    signal_type := signal_type, protocol := protocol
    parameters := parameters, sample_rate := sample_rate
    duration := (parameters.lookup "duration").getD (.int 0)
    file_size_mb := signal_bytes.length, created_time := now
    checksum := MD5.hexdigest (signal_bytes.map sampleByte) }

def storedState (st' : CacheState) (signal_type protocol : String)
    (parameters : List (String × PVal)) (signal_bytes : List Int)
    (sample_rate : Int) (now : Nat) : CacheState :=
  { fs := fsWrite (filePathOf (cacheFilename signal_type protocol parameters))
      signal_bytes st'.fs
    index := (get_cache_key signal_type protocol parameters,
      newEntry signal_type protocol parameters signal_bytes sample_rate now)
      :: st'.index
    metaFile := (get_cache_key signal_type protocol parameters,
      newEntry signal_type protocol parameters signal_bytes sample_rate now)
      :: st'.index }

def cache_signal (st : CacheState) (signal_type protocol : String)
    (parameters : List (String × PVal)) (signal_bytes : List Int)
    (sample_rate : Int) (now : Nat) :
    String × CacheState × List CacheState × List FsOp :=
  match get_cached_signal st signal_type protocol parameters with
  | (some cached_path, st') => (cached_path, st', [st'], [])
  | (none, st') =>
      (filePathOf (cacheFilename signal_type protocol parameters),
       storedState st' signal_type protocol parameters signal_bytes sample_rate now,
       st' :: ((List.range (signal_bytes.length + 1)).map
         (fun n => { st' with
           fs := fsWrite (filePathOf (cacheFilename signal_type protocol parameters))
             (signal_bytes.take n) st'.fs }))
         ++ [storedState st' signal_type protocol parameters signal_bytes
              sample_rate now],
       [.openW (filePathOf (cacheFilename signal_type protocol parameters)),
        .write (filePathOf (cacheFilename signal_type protocol parameters))
          signal_bytes,
        .close (filePathOf (cacheFilename signal_type protocol parameters))])

/-- Embedding of `get_or_generate_signal`: return the cached path and its
recorded sample rate on a hit; otherwise invoke the generator — an
exception propagates, leaving the post-lookup state — and cache the result. -/
def get_or_generate_signal (st : CacheState) (signal_type protocol : String)
    (parameters : List (String × PVal))
    (generator_func : List (String × PVal) → Except String (List Int × Int))
    (now : Nat) : Except String (String × Int) × CacheState :=
  match get_cached_signal st signal_type protocol parameters with
  | (some cached_path, st') =>
      match st'.index.lookup (get_cache_key signal_type protocol parameters) with
      | some cs => (.ok (cached_path, cs.sample_rate), st')
      | none => (.error "KeyError", st')
  | (none, st') =>
      match generator_func parameters with
      | .error e => (.error e, st')
      | .ok (signal_data, sample_rate) =>
          (.ok ((cache_signal st' signal_type protocol parameters
              signal_data sample_rate now).1, sample_rate),
           (cache_signal st' signal_type protocol parameters
              signal_data sample_rate now).2.1)

/-- State well-formedness: every indexed entry's file is present in full
(its MD5 checksum matches the entry's). -/
def WFState (st : CacheState) : Prop :=
  ∀ p ∈ st.index, ∃ b, st.fs.lookup (filePathOf p.2.filename) = some b
    ∧ MD5.hexdigest (b.map sampleByte) = p.2.checksum

lemma lookup_filter_ne {β : Type} (k : String) :
    ∀ l : List (String × β), (l.filter (fun p => p.1 != k)).lookup k = none
  | [] => rfl
  | (k', v) :: rest => by
      rw [List.filter_cons]
      by_cases h : k' = k
      · rw [if_neg (by simp [h])]
        exact lookup_filter_ne k rest
      · rw [if_pos (by simpa using h), List.lookup_cons]
        have hba : (k == k') = false := by
          simp only [beq_eq_false_iff_ne, ne_eq]
          exact fun he => h he.symm
        rw [hba]
        exact lookup_filter_ne k rest

lemma mem_filter_sub {β : Type} (k : String) (l : List (String × β)) :
    ∀ p ∈ l.filter (fun p => p.1 != k), p ∈ l := by
  intro p hp
  exact (List.mem_filter.mp hp).1

end UniversalSignalCache

namespace UniversalSignalCache

lemma lookup_filter_preserve {β : Type} (k q : String) (hne : q ≠ k) :
    ∀ l : List (String × β),
      (l.filter (fun p => p.1 != k)).lookup q = l.lookup q
  | [] => rfl
  | (k', v) :: rest => by
      rw [List.filter_cons]
      by_cases h : k' = k
      · rw [if_neg (by simp [h]), List.lookup_cons]
        have hba : (q == k') = false := by
          simp only [beq_eq_false_iff_ne, ne_eq]
          rw [h]
          exact hne
        rw [hba]
        exact lookup_filter_preserve k q hne rest
      · rw [if_pos (by simpa using h), List.lookup_cons, List.lookup_cons]
        cases hqk : (q == k')
        · exact lookup_filter_preserve k q hne rest
        · rfl

lemma fsWrite_lookup_self (path : String) (bytes : List Int)
    (fs : List (String × List Int)) :
    (fsWrite path bytes fs).lookup path = some bytes := by
  unfold fsWrite
  exact List.lookup_cons_self

lemma fsWrite_lookup_ne (path q : String) (hne : q ≠ path) (bytes : List Int)
    (fs : List (String × List Int)) :
    (fsWrite path bytes fs).lookup q = fs.lookup q := by
  unfold fsWrite
  rw [List.lookup_cons]
  have hba : (q == path) = false := by
    simp only [beq_eq_false_iff_ne, ne_eq]
    exact hne
  rw [hba]
  exact lookup_filter_preserve path q hne fs

/-- What `get_cached_signal` does to the state: the disk is untouched, the
index only shrinks, and on a hit the state is returned unchanged. -/
lemma get_cached_signal_state (st : CacheState) (sig prot : String)
    (params : List (String × PVal)) :
    (get_cached_signal st sig prot params).2.fs = st.fs
    ∧ (∀ p ∈ (get_cached_signal st sig prot params).2.index, p ∈ st.index)
    ∧ (∀ path, (get_cached_signal st sig prot params).1 = some path →
        (get_cached_signal st sig prot params).2 = st)
    ∧ ((get_cached_signal st sig prot params).1 = none →
        (get_cached_signal st sig prot params).2.index.lookup
          (get_cache_key sig prot params) = none) := by
  unfold get_cached_signal
  cases hl : st.index.lookup (get_cache_key sig prot params) with
  | none =>
      refine ⟨rfl, fun p hp => hp, fun path h => rfl, fun _ => hl⟩
  | some cs =>
      dsimp only
      by_cases hf : fileExists (filePathOf cs.filename) st.fs = true
      · rw [if_pos hf]
        exact ⟨rfl, fun p hp => hp, fun path _ => rfl, fun h => Option.noConfusion h⟩
      · rw [if_neg hf]
        refine ⟨rfl, ?_, fun path h => Option.noConfusion h, ?_⟩
        · intro p hp
          exact mem_filter_sub _ _ p hp
        · intro _
          exact lookup_filter_ne _ st.index

end UniversalSignalCache

/-- Claim C4: `get_cached_signal` returns a path exactly when the key is
indexed and the file exists on disk; an indexed entry with a missing file is
purged from the index, the metadata is persisted (equal to the new index),
the disk is untouched and the lookup returns nothing; an unindexed key
leaves the state untouched. -/
theorem C4_lookup_requires_file_and_purges (st : UniversalSignalCache.CacheState)
    (sig prot : String) (params : List (String × UniversalSignalCache.PVal)) :
    (∀ path : String,
      (UniversalSignalCache.get_cached_signal st sig prot params).1 = some path ↔
        ∃ cs, st.index.lookup (UniversalSignalCache.get_cache_key sig prot params)
            = some cs
          ∧ UniversalSignalCache.fileExists
              (UniversalSignalCache.filePathOf cs.filename) st.fs = true
          ∧ path = UniversalSignalCache.filePathOf cs.filename)
    ∧ (∀ cs, st.index.lookup (UniversalSignalCache.get_cache_key sig prot params)
          = some cs →
        UniversalSignalCache.fileExists
          (UniversalSignalCache.filePathOf cs.filename) st.fs = false →
        (UniversalSignalCache.get_cached_signal st sig prot params).1 = none
        ∧ (UniversalSignalCache.get_cached_signal st sig prot params).2.index.lookup
            (UniversalSignalCache.get_cache_key sig prot params) = none
        ∧ (UniversalSignalCache.get_cached_signal st sig prot params).2.metaFile
            = (UniversalSignalCache.get_cached_signal st sig prot params).2.index
        ∧ (UniversalSignalCache.get_cached_signal st sig prot params).2.fs = st.fs)
    ∧ (st.index.lookup (UniversalSignalCache.get_cache_key sig prot params) = none →
        UniversalSignalCache.get_cached_signal st sig prot params = (none, st)) := by
  unfold UniversalSignalCache.get_cached_signal
  cases hl : st.index.lookup (UniversalSignalCache.get_cache_key sig prot params) with
  | none =>
      refine ⟨?_, ?_, fun _ => rfl⟩
      · intro path
        constructor
        · intro h
          exact Option.noConfusion h
        · rintro ⟨cs, hcs, -, -⟩
          exact Option.noConfusion hcs
      · intro cs hcs
        exact Option.noConfusion hcs
  | some cs =>
      dsimp only
      by_cases hf : UniversalSignalCache.fileExists
          (UniversalSignalCache.filePathOf cs.filename) st.fs = true
      · rw [if_pos hf]
        refine ⟨?_, ?_, fun h => Option.noConfusion h⟩
        · intro path
          constructor
          · intro h
            exact ⟨cs, rfl, hf, (Option.some.injEq _ _ ▸ h).symm⟩
          · rintro ⟨cs', hcs', hf', hp⟩
            rw [Option.some.injEq] at hcs'
            subst hcs'
            rw [hp]
        · intro cs' hcs' hf'
          rw [Option.some.injEq] at hcs'
          subst hcs'
          rw [hf] at hf'
          exact Bool.noConfusion hf'
      · rw [if_neg hf]
        refine ⟨?_, ?_, fun h => Option.noConfusion h⟩
        · intro path
          constructor
          · intro h
            exact Option.noConfusion h
          · rintro ⟨cs', hcs', hf', -⟩
            rw [Option.some.injEq] at hcs'
            subst hcs'
            rw [Bool.eq_false_iff.mpr hf] at hf'
            exact Bool.noConfusion hf'
        · intro cs' hcs' hf'
          exact ⟨rfl, UniversalSignalCache.lookup_filter_ne _ st.index, rfl, rfl⟩

/-- Witness for C4, through the theorem: a concretely indexed key whose file
is missing from the (empty) disk is purged: the lookup returns nothing, the
entry disappears from the index, and the persisted metadata equals the new
index. -/
theorem C4_lookup_witness :
    (UniversalSignalCache.get_cached_signal
      ⟨[], [(UniversalSignalCache.get_cache_key "t" "p" [],
             ⟨"f.bin", "t", "p", [], 0, .int 0, 0, 0, "c"⟩)],
           [(UniversalSignalCache.get_cache_key "t" "p" [],
             ⟨"f.bin", "t", "p", [], 0, .int 0, 0, 0, "c"⟩)]⟩
      "t" "p" []).1 = none
    ∧ (UniversalSignalCache.get_cached_signal
      ⟨[], [(UniversalSignalCache.get_cache_key "t" "p" [],
             ⟨"f.bin", "t", "p", [], 0, .int 0, 0, 0, "c"⟩)],
           [(UniversalSignalCache.get_cache_key "t" "p" [],
             ⟨"f.bin", "t", "p", [], 0, .int 0, 0, 0, "c"⟩)]⟩
      "t" "p" []).2.index.lookup
        (UniversalSignalCache.get_cache_key "t" "p" []) = none := by
  have h := (C4_lookup_requires_file_and_purges
    ⟨[], [(UniversalSignalCache.get_cache_key "t" "p" [],
           ⟨"f.bin", "t", "p", [], 0, .int 0, 0, 0, "c"⟩)],
         [(UniversalSignalCache.get_cache_key "t" "p" [],
           ⟨"f.bin", "t", "p", [], 0, .int 0, 0, 0, "c"⟩)]⟩
    "t" "p" []).2.1 ⟨"f.bin", "t", "p", [], 0, .int 0, 0, 0, "c"⟩
    (by rw [List.lookup_cons_self]) rfl
  exact ⟨h.1, h.2.1⟩

namespace UniversalSignalCache

/-- The lookup never touches the disk and only shrinks the index, so it
preserves well-formedness. -/
lemma gcs_wf (st : CacheState) (sig prot : String)
    (params : List (String × PVal)) (hwf : WFState st) :
    WFState (get_cached_signal st sig prot params).2 := by
  intro p hp
  obtain ⟨b, hb1, hb2⟩ :=
    hwf p ((get_cached_signal_state st sig prot params).2.1 p hp)
  refine ⟨b, ?_, hb2⟩
  rw [(get_cached_signal_state st sig prot params).1]
  exact hb1

end UniversalSignalCache

/-- Counterexample for claim C3: on a concrete cache miss, `cache_signal`
performs exactly one direct open/write/close of the final path — there is no
temporary file and no rename, so the claimed write-temp-then-rename
mechanism (whose trace necessarily ends in a rename) is absent. -/
theorem C3_store_counterexample :
    (UniversalSignalCache.cache_signal ⟨[], [], []⟩ "t" "p" [] [1, 2, 3] 0 0).2.2.2
      = [UniversalSignalCache.FsOp.openW
           (UniversalSignalCache.filePathOf
             (UniversalSignalCache.cacheFilename "t" "p" [])),
         UniversalSignalCache.FsOp.write
           (UniversalSignalCache.filePathOf
             (UniversalSignalCache.cacheFilename "t" "p" [])) [1, 2, 3],
         UniversalSignalCache.FsOp.close
           (UniversalSignalCache.filePathOf
             (UniversalSignalCache.cacheFilename "t" "p" []))]
    ∧ ¬ ∃ tmp : String,
        (UniversalSignalCache.cache_signal ⟨[], [], []⟩ "t" "p" [] [1, 2, 3] 0 0).2.2.2
          = [UniversalSignalCache.FsOp.openW tmp,
             UniversalSignalCache.FsOp.write tmp [1, 2, 3],
             UniversalSignalCache.FsOp.close tmp,
             UniversalSignalCache.FsOp.rename tmp
               (UniversalSignalCache.filePathOf
                 (UniversalSignalCache.cacheFilename "t" "p" []))] := by
  constructor
  · rfl
  · rintro ⟨tmp, h⟩
    have h3 : (UniversalSignalCache.cache_signal
        ⟨[], [], []⟩ "t" "p" [] [1, 2, 3] 0 0).2.2.2.length = 3 := rfl
    rw [h] at h3
    simp at h3

/-- Claim C3 (amended): `cache_signal` writes the bytes directly to the
final path — a single open/write/close, no temporary file, no rename — and
only inserts the metadata entry after the write completes, so from any
well-formed state (and absent a filename collision with an existing entry)
every observable intermediate state is well-formed: no indexed entry ever
references an absent or partially-written file. -/
theorem C3_store_amended (st : UniversalSignalCache.CacheState)
    (sig prot : String) (params : List (String × UniversalSignalCache.PVal))
    (bytes : List Int) (rate : Int) (now : Nat)
    (hwf : UniversalSignalCache.WFState st)
    (hcol : ∀ p ∈ st.index,
      UniversalSignalCache.filePathOf p.2.filename
        ≠ UniversalSignalCache.filePathOf
            (UniversalSignalCache.cacheFilename sig prot params)) :
    (∀ s ∈ (UniversalSignalCache.cache_signal st sig prot params bytes rate now).2.2.1,
      UniversalSignalCache.WFState s)
    ∧ (∀ op ∈ (UniversalSignalCache.cache_signal st sig prot params bytes rate now).2.2.2,
      op.isRename = false) := by
  have hwf' := UniversalSignalCache.gcs_wf st sig prot params hwf
  have hcol' : ∀ p ∈ (UniversalSignalCache.get_cached_signal st sig prot params).2.index,
      UniversalSignalCache.filePathOf p.2.filename
        ≠ UniversalSignalCache.filePathOf
            (UniversalSignalCache.cacheFilename sig prot params) :=
    fun p hp => hcol p
      ((UniversalSignalCache.get_cached_signal_state st sig prot params).2.1 p hp)
  unfold UniversalSignalCache.cache_signal
  rcases hgc : UniversalSignalCache.get_cached_signal st sig prot params with ⟨o, st'⟩
  rw [hgc] at hwf' hcol'
  cases o with
  | some p =>
      dsimp only
      constructor
      · intro s hs
        rw [List.mem_singleton] at hs
        subst hs
        exact hwf'
      · intro op hop
        exact absurd hop (List.not_mem_nil op)
  | none =>
      dsimp only
      constructor
      · intro s hs
        rcases List.mem_cons.mp hs with he | hm
        · subst he
          exact hwf'
        rcases List.mem_append.mp hm with hw | hfin
        · obtain ⟨n, hn, hsn⟩ := List.mem_map.mp hw
          subst hsn
          intro p hp
          obtain ⟨b, hb1, hb2⟩ := hwf' p hp
          refine ⟨b, ?_, hb2⟩
          rw [UniversalSignalCache.fsWrite_lookup_ne _ _ (hcol' p hp)]
          exact hb1
        · rw [List.mem_singleton] at hfin
          subst hfin
          unfold UniversalSignalCache.storedState
          intro p hp
          rcases List.mem_cons.mp hp with he | hm2
          · subst he
            exact ⟨bytes, UniversalSignalCache.fsWrite_lookup_self _ _ _, rfl⟩
          · obtain ⟨b, hb1, hb2⟩ := hwf' p hm2
            refine ⟨b, ?_, hb2⟩
            rw [UniversalSignalCache.fsWrite_lookup_ne _ _ (hcol' p hm2)]
            exact hb1
      · intro op hop
        rcases List.mem_cons.mp hop with h1 | hop
        · subst h1
          rfl
        rcases List.mem_cons.mp hop with h2 | hop
        · subst h2
          rfl
        rcases List.mem_cons.mp hop with h3 | hop
        · subst h3
          rfl
        · exact absurd hop (List.not_mem_nil op)

/-- Witness for the amended C3: a concrete store into the empty cache (both
hypotheses hold vacuously) leaves every observable state well-formed and
performs no rename. -/
theorem C3_store_amended_witness :
    (∀ s ∈ (UniversalSignalCache.cache_signal
        ⟨[], [], []⟩ "t" "p" [] [1, 2, 3] 0 0).2.2.1,
      UniversalSignalCache.WFState s)
    ∧ (∀ op ∈ (UniversalSignalCache.cache_signal
        ⟨[], [], []⟩ "t" "p" [] [1, 2, 3] 0 0).2.2.2,
      op.isRename = false) :=
  C3_store_amended ⟨[], [], []⟩ "t" "p" [] [1, 2, 3] 0 0
    (fun p hp => absurd hp (List.not_mem_nil p))
    (fun p hp => absurd hp (List.not_mem_nil p))

namespace UniversalSignalCache

/-- An unindexed key makes the lookup a no-op. -/
lemma gcs_lookup_none (st : CacheState) (sig prot : String)
    (params : List (String × PVal))
    (h : st.index.lookup (get_cache_key sig prot params) = none) :
    get_cached_signal st sig prot params = (none, st) := by
  unfold get_cached_signal
  rw [h]

end UniversalSignalCache

/-- Counterexample for claim C5: on a cache-miss call whose key is indexed
with a missing file, the lookup that precedes generation purges the stale
entry and persists the metadata; when the encoder then raises, the error
propagates but the cache state has changed and metadata HAS been persisted —
contradicting the claim's "the cache state is unchanged — ... no metadata is
persisted". -/
theorem C5_counterexample :
    (UniversalSignalCache.get_or_generate_signal
      ⟨[], [(UniversalSignalCache.get_cache_key "t" "p" [],
             ⟨"f.bin", "t", "p", [], 0, .int 0, 0, 0, "c"⟩)],
           [(UniversalSignalCache.get_cache_key "t" "p" [],
             ⟨"f.bin", "t", "p", [], 0, .int 0, 0, 0, "c"⟩)]⟩
      "t" "p" [] (fun _ => .error "boom") 0).1 = .error "boom"
    ∧ (List.lookup (UniversalSignalCache.get_cache_key "t" "p" [])
        [(UniversalSignalCache.get_cache_key "t" "p" [],
          (⟨"f.bin", "t", "p", [], 0, .int 0, 0, 0, "c"⟩
            : UniversalSignalCache.CachedSignal))]).isSome = true
    ∧ (UniversalSignalCache.get_or_generate_signal
      ⟨[], [(UniversalSignalCache.get_cache_key "t" "p" [],
             ⟨"f.bin", "t", "p", [], 0, .int 0, 0, 0, "c"⟩)],
           [(UniversalSignalCache.get_cache_key "t" "p" [],
             ⟨"f.bin", "t", "p", [], 0, .int 0, 0, 0, "c"⟩)]⟩
      "t" "p" [] (fun _ => .error "boom") 0).2.metaFile = []
    ∧ (UniversalSignalCache.get_or_generate_signal
      ⟨[], [(UniversalSignalCache.get_cache_key "t" "p" [],
             ⟨"f.bin", "t", "p", [], 0, .int 0, 0, 0, "c"⟩)],
           [(UniversalSignalCache.get_cache_key "t" "p" [],
             ⟨"f.bin", "t", "p", [], 0, .int 0, 0, 0, "c"⟩)]⟩
      "t" "p" [] (fun _ => .error "boom") 0).2.index = [] := by
  refine ⟨rfl, ?_, rfl, rfl⟩
  rw [List.lookup_cons_self]
  rfl

/-- Claim C5 (amended): on a cache-miss call whose encoder raises, the error
propagates to the caller, no sample file is created, no entry for the key is
present afterwards, and the resulting state is exactly the post-lookup
state — i.e. unchanged except for the lazy purge (with its metadata rewrite)
that the initial lookup may have performed; when the key was not indexed at
all, the state is fully unchanged. -/
theorem C5_no_negative_caching (st : UniversalSignalCache.CacheState)
    (sig prot : String) (params : List (String × UniversalSignalCache.PVal))
    (gen : List (String × UniversalSignalCache.PVal)
      → Except String (List Int × Int))
    (now : Nat) (e : String)
    (hmiss : (UniversalSignalCache.get_cached_signal st sig prot params).1 = none)
    (hgen : gen params = .error e) :
    (UniversalSignalCache.get_or_generate_signal st sig prot params gen now).1
      = .error e
    ∧ (UniversalSignalCache.get_or_generate_signal st sig prot params gen now).2.fs
      = st.fs
    ∧ (UniversalSignalCache.get_or_generate_signal st sig prot params
        gen now).2.index.lookup (UniversalSignalCache.get_cache_key sig prot params)
      = none
    ∧ (UniversalSignalCache.get_or_generate_signal st sig prot params gen now).2
      = (UniversalSignalCache.get_cached_signal st sig prot params).2
    ∧ (st.index.lookup (UniversalSignalCache.get_cache_key sig prot params) = none →
        (UniversalSignalCache.get_or_generate_signal st sig prot params gen now).2
          = st) := by
  have hfs := (UniversalSignalCache.get_cached_signal_state st sig prot params).1
  have hlk := (UniversalSignalCache.get_cached_signal_state st sig prot params).2.2.2
  unfold UniversalSignalCache.get_or_generate_signal
  rcases hgc : UniversalSignalCache.get_cached_signal st sig prot params with ⟨o, st'⟩
  rw [hgc] at hmiss hfs hlk
  have ho : o = none := hmiss
  subst ho
  dsimp only
  rw [hgen]
  refine ⟨rfl, hfs, hlk rfl, rfl, ?_⟩
  intro hnone
  have h0 := UniversalSignalCache.gcs_lookup_none st sig prot params hnone
  rw [hgc] at h0
  exact congrArg Prod.snd h0

/-- Witness for the amended C5: a failing encoder on the empty cache
propagates its error and leaves everything untouched, through the theorem. -/
theorem C5_no_negative_caching_witness :
    (UniversalSignalCache.get_or_generate_signal ⟨[], [], []⟩ "t" "p" []
      (fun _ => .error "boom") 0).1 = .error "boom"
    ∧ (UniversalSignalCache.get_or_generate_signal ⟨[], [], []⟩ "t" "p" []
      (fun _ => .error "boom") 0).2
      = (⟨[], [], []⟩ : UniversalSignalCache.CacheState) := by
  have h := C5_no_negative_caching ⟨[], [], []⟩ "t" "p" []
    (fun _ => .error "boom") 0 "boom" rfl rfl
  exact ⟨h.1, h.2.2.2.2 rfl⟩

/-! ## Concurrency skeleton of get_or_generate_signal (claim C2)

Interleaving model of two threads running `get_or_generate_signal` for the
SAME (signal_type, protocol, parameters).  Atomic steps follow the source's
sequence: the initial `get_cached_signal` (hit returns, stale entry purged),
the `generator_func` call, `cache_signal`'s own re-check, the acquisition of
the single global `generation_lock` (which guards only the write), and the
locked write+metadata+release.  Shared state tracks only the one relevant
key: whether it is indexed, whether its file is on disk, whether the global
lock is held, and how many times the encoder has run.  A blocked lock
acquisition leaves the state unchanged.  A `done` thread records the path it
returned and whether it invoked the encoder. -/

namespace UniversalSignalCache

inductive ThreadSt where
  | start
  | preGen
  | generated
  | waitLock
  | locked
  | done (path : String) (invoked : Bool)
deriving DecidableEq

structure Shared where
  filename : String
  indexed : Bool
  onDisk : Bool
  lock : Bool
  encoderCalls : Nat
deriving DecidableEq

/-- One atomic step of a single thread. -/
def threadStep (sh : Shared) : ThreadSt → Shared × ThreadSt
  | .start =>
      if sh.indexed && sh.onDisk then (sh, .done (filePathOf sh.filename) false)
      else ({ sh with indexed := false }, .preGen)
  | .preGen => ({ sh with encoderCalls := sh.encoderCalls + 1 }, .generated)
  | .generated =>
      if sh.indexed && sh.onDisk then (sh, .done (filePathOf sh.filename) true)
      else ({ sh with indexed := false }, .waitLock)
  | .waitLock =>
      if sh.lock then (sh, .waitLock)
      else ({ sh with lock := true }, .locked)
  | .locked =>
      ({ sh with indexed := true, onDisk := true, lock := false },
       .done (filePathOf sh.filename) true)
  | .done p g => (sh, .done p g)

structure Sys where
  shared : Shared
  th0 : ThreadSt
  th1 : ThreadSt
deriving DecidableEq

def step (t : Fin 2) (s : Sys) : Sys :=
  if t = 0 then
    { shared := (threadStep s.shared s.th0).1,
      th0 := (threadStep s.shared s.th0).2, th1 := s.th1 }
  else
    { shared := (threadStep s.shared s.th1).1,
      th0 := s.th0, th1 := (threadStep s.shared s.th1).2 }

def run (sched : List (Fin 2)) (s : Sys) : Sys :=
  sched.foldl (fun s t => step t s) s

/-- Both threads request the same not-yet-cached signal. -/
def initSys (sig prot : String) (params : List (String × PVal)) : Sys :=
  { shared := ⟨cacheFilename sig prot params, false, false, false, 0⟩
    th0 := .start
    th1 := .start }

/-- Number of encoder invocations a thread has performed (0 or 1). -/
def genFlag : ThreadSt → Nat
  | .start => 0
  | .preGen => 0
  | .generated => 1
  | .waitLock => 1
  | .locked => 1
  | .done _ g => if g then 1 else 0

def lockedFlag : ThreadSt → Bool
  | .locked => true
  | _ => false

/-- The inductive invariant of the two-thread system. -/
def Inv (s : Sys) : Prop :=
  s.shared.encoderCalls = genFlag s.th0 + genFlag s.th1
  ∧ ((s.shared.indexed = true ∨ s.shared.onDisk = true) →
      1 ≤ s.shared.encoderCalls)
  ∧ (∀ p g, s.th0 = .done p g →
      p = filePathOf s.shared.filename ∧ (g = false → s.shared.onDisk = true))
  ∧ (∀ p g, s.th1 = .done p g →
      p = filePathOf s.shared.filename ∧ (g = false → s.shared.onDisk = true))
  ∧ (lockedFlag s.th0 = true → s.shared.lock = true)
  ∧ (lockedFlag s.th1 = true → s.shared.lock = true)
  ∧ ¬(lockedFlag s.th0 = true ∧ lockedFlag s.th1 = true)

def swapSys (s : Sys) : Sys := { shared := s.shared, th0 := s.th1, th1 := s.th0 }

lemma inv_swap {s : Sys} (h : Inv s) : Inv (swapSys s) := by
  obtain ⟨h1, h2, h3, h4, h5, h6, h7⟩ := h
  refine ⟨?_, h2, h4, h3, h6, h5, fun hb => h7 ⟨hb.2, hb.1⟩⟩
  show s.shared.encoderCalls = genFlag s.th1 + genFlag s.th0
  omega

lemma step_one_swap (s : Sys) : step 1 s = swapSys (step 0 (swapSys s)) := rfl

end UniversalSignalCache

namespace UniversalSignalCache

lemma inv_step0 {s : Sys} (h : Inv s) : Inv (step 0 s) := by
  obtain ⟨h1, h2, h3, h4, h5, h6, h7⟩ := h
  unfold step
  rw [if_pos rfl]
  cases hth : s.th0 with
  | start =>
      rw [hth] at h1
      dsimp only [threadStep]
      by_cases hc : (s.shared.indexed && s.shared.onDisk) = true
      · rw [if_pos hc]
        have hdisk : s.shared.onDisk = true := by
          rw [Bool.and_eq_true] at hc
          exact hc.2
        refine ⟨?_, h2, ?_, h4, ?_, h6, ?_⟩
        · simpa [genFlag] using h1
        · intro p g hpg
          rw [ThreadSt.done.injEq] at hpg
          exact ⟨hpg.1.symm, fun _ => hdisk⟩
        · intro hl
          exact absurd hl (by simp [lockedFlag])
        · rintro ⟨hl, -⟩
          exact absurd hl (by simp [lockedFlag])
      · rw [if_neg hc]
        refine ⟨?_, ?_, ?_, ?_, ?_, h6, ?_⟩
        · simpa [genFlag] using h1
        · rintro (hi | hd)
          · exact absurd hi (by simp)
          · exact h2 (Or.inr hd)
        · intro p g hpg
          exact absurd hpg (by simp)
        · intro p g hpg
          obtain ⟨hp, hg⟩ := h4 p g hpg
          exact ⟨hp, hg⟩
        · intro hl
          exact absurd hl (by simp [lockedFlag])
        · rintro ⟨hl, -⟩
          exact absurd hl (by simp [lockedFlag])
  | preGen =>
      rw [hth] at h1
      dsimp only [threadStep]
      refine ⟨?_, ?_, ?_, h4, ?_, h6, ?_⟩
      · simp only [genFlag] at h1 ⊢
        omega
      · intro _
        show 1 ≤ s.shared.encoderCalls + 1
        omega
      · intro p g hpg
        exact absurd hpg (by simp)
      · intro hl
        exact absurd hl (by simp [lockedFlag])
      · rintro ⟨hl, -⟩
        exact absurd hl (by simp [lockedFlag])
  | generated =>
      rw [hth] at h1
      dsimp only [threadStep]
      by_cases hc : (s.shared.indexed && s.shared.onDisk) = true
      · rw [if_pos hc]
        have hdisk : s.shared.onDisk = true := by
          rw [Bool.and_eq_true] at hc
          exact hc.2
        refine ⟨?_, h2, ?_, h4, ?_, h6, ?_⟩
        · simpa [genFlag] using h1
        · intro p g hpg
          rw [ThreadSt.done.injEq] at hpg
          exact ⟨hpg.1.symm, fun _ => hdisk⟩
        · intro hl
          exact absurd hl (by simp [lockedFlag])
        · rintro ⟨hl, -⟩
          exact absurd hl (by simp [lockedFlag])
      · rw [if_neg hc]
        refine ⟨?_, ?_, ?_, ?_, ?_, h6, ?_⟩
        · simpa [genFlag] using h1
        · rintro (hi | hd)
          · exact absurd hi (by simp)
          · exact h2 (Or.inr hd)
        · intro p g hpg
          exact absurd hpg (by simp)
        · intro p g hpg
          exact h4 p g hpg
        · intro hl
          exact absurd hl (by simp [lockedFlag])
        · rintro ⟨hl, -⟩
          exact absurd hl (by simp [lockedFlag])
  | waitLock =>
      rw [hth] at h1
      dsimp only [threadStep]
      by_cases hc : s.shared.lock = true
      · rw [if_pos hc]
        refine ⟨?_, h2, ?_, h4, ?_, h6, ?_⟩
        · simpa [genFlag] using h1
        · intro p g hpg
          exact absurd hpg (by simp)
        · intro hl
          exact absurd hl (by simp [lockedFlag])
        · rintro ⟨hl, -⟩
          exact absurd hl (by simp [lockedFlag])
      · rw [if_neg hc]
        have hth1 : lockedFlag s.th1 = false := by
          cases hl1 : lockedFlag s.th1
          · rfl
          · exact absurd (h6 hl1) hc
        refine ⟨?_, h2, ?_, h4, ?_, ?_, ?_⟩
        · simpa [genFlag] using h1
        · intro p g hpg
          exact absurd hpg (by simp)
        · intro _
          rfl
        · intro _
          rfl
        · rintro ⟨-, hl1⟩
          rw [hth1] at hl1
          exact Bool.noConfusion hl1
  | locked =>
      rw [hth] at h1
      rw [hth] at h5
      dsimp only [threadStep]
      have hth1 : lockedFlag s.th1 = false := by
        cases hl1 : lockedFlag s.th1
        · rfl
        · exact absurd ⟨by rw [hth]; rfl, hl1⟩ h7
      refine ⟨?_, ?_, ?_, ?_, ?_, ?_, ?_⟩
      · simpa [genFlag] using h1
      · intro _
        show 1 ≤ s.shared.encoderCalls
        simp only [genFlag] at h1
        omega
      · intro p g hpg
        rw [ThreadSt.done.injEq] at hpg
        exact ⟨hpg.1.symm, fun _ => rfl⟩
      · intro p g hpg
        obtain ⟨hp, -⟩ := h4 p g hpg
        exact ⟨hp, fun _ => rfl⟩
      · intro hl
        exact absurd hl (by simp [lockedFlag])
      · intro hl1
        rw [hth1] at hl1
        exact Bool.noConfusion hl1
      · rintro ⟨hl, -⟩
        exact absurd hl (by simp [lockedFlag])
  | done p g =>
      rw [hth] at h1 h3
      dsimp only [threadStep]
      refine ⟨?_, h2, ?_, h4, ?_, h6, ?_⟩
      · simpa [genFlag] using h1
      · intro p' g' hpg
        rw [ThreadSt.done.injEq] at hpg
        obtain ⟨hp, hg⟩ := h3 p g rfl
        constructor
        · rw [← hpg.1]
          exact hp
        · intro hf
          apply hg
          rw [hpg.2]
          exact hf
      · intro hl
        exact absurd hl (by simp [lockedFlag])
      · rintro ⟨hl, -⟩
        exact absurd hl (by simp [lockedFlag])

lemma inv_step (t : Fin 2) {s : Sys} (h : Inv s) : Inv (step t s) := by
  fin_cases t
  · exact inv_step0 h
  · show Inv (step 1 s)
    rw [step_one_swap]
    exact inv_swap (inv_step0 (inv_swap h))

lemma inv_run (sched : List (Fin 2)) {s : Sys} (h : Inv s) : Inv (run sched s) := by
  induction sched generalizing s with
  | nil => exact h
  | cons t rest ih => exact ih (inv_step t h)

lemma inv_init (sig prot : String) (params : List (String × PVal)) :
    Inv (initSys sig prot params) := by
  refine ⟨rfl, ?_, ?_, ?_, ?_, ?_, ?_⟩
  · rintro (hi | hd)
    · exact absurd hi (by simp [initSys])
    · exact absurd hd (by simp [initSys])
  · intro p g hpg
    exact absurd hpg (by simp [initSys])
  · intro p g hpg
    exact absurd hpg (by simp [initSys])
  · intro hl
    exact absurd hl (by simp [initSys, lockedFlag])
  · intro hl
    exact absurd hl (by simp [initSys, lockedFlag])
  · rintro ⟨hl, -⟩
    exact absurd hl (by simp [initSys, lockedFlag])

end UniversalSignalCache

namespace UniversalSignalCache

lemma genFlag_le_one : ∀ ts, genFlag ts ≤ 1
  | .start => by simp [genFlag]
  | .preGen => by simp [genFlag]
  | .generated => Nat.le_refl 1
  | .waitLock => Nat.le_refl 1
  | .locked => Nat.le_refl 1
  | .done _ g => by cases g <;> simp [genFlag]

/-- Parameters of the two concurrent ELRS requests from the spec scenario. -/
def cexParams : List (String × PVal) :=
  [("packet_rate", PVal.float 100 0), ("duration", PVal.float 10 0)]

/-- A schedule interleaving the two threads so both miss before either stores. -/
def cexSched : List (Fin 2) := [0, 1, 0, 1, 0, 1, 0, 1, 0, 1, 1]

/-- Both threads concurrently request the same uncached ELRS signal. -/
def cexSys : Sys := initSys "elrs_915mhz" "elrs" cexParams

/-- The path both threads end up returning. -/
def cexPath : String := filePathOf (cacheFilename "elrs_915mhz" "elrs" cexParams)

end UniversalSignalCache

/-- **C2** (counterexample). The claim that two concurrent
`get_or_generate_signal` calls for the same key invoke the encoder exactly
once is false: `generation_lock` guards only the cache-write step, while the
miss check and the encoder call happen outside it. Under the interleaving
`cexSched`, both threads of the two-thread model miss, both invoke the
encoder (`encoderCalls = 2`), and both finish `done` with `invoked = true`,
on the same path. -/
theorem C2_counterexample :
    (UniversalSignalCache.run UniversalSignalCache.cexSched
        UniversalSignalCache.cexSys).shared.encoderCalls = 2
    ∧ (UniversalSignalCache.run UniversalSignalCache.cexSched
        UniversalSignalCache.cexSys).th0
        = UniversalSignalCache.ThreadSt.done UniversalSignalCache.cexPath true
    ∧ (UniversalSignalCache.run UniversalSignalCache.cexSched
        UniversalSignalCache.cexSys).th1
        = UniversalSignalCache.ThreadSt.done UniversalSignalCache.cexPath true :=
  ⟨rfl, rfl, rfl⟩

/-- **C2** (amended). What the global `generation_lock` actually guarantees
for two concurrent same-key `get_or_generate_signal` calls, over every
interleaving `sched` from the common initial state: (i) if both threads have
returned, they returned the same path, the encoder ran at least once and at
most twice (duplicate generation is possible, but the result is never
fabricated and never triplicated); (ii) at no reachable state do both
threads hold the lock (mutual exclusion of the write section); (iii) the
generation step itself never consults the lock, i.e. a thread about to
generate transitions to `generated` regardless of the shared state — the
encoder runs outside the critical section. -/
theorem C2_single_flight_amended (sig prot : String)
    (params : List (String × UniversalSignalCache.PVal))
    (sched : List (Fin 2)) :
    (∀ p0 g0 p1 g1,
        (UniversalSignalCache.run sched
            (UniversalSignalCache.initSys sig prot params)).th0
          = UniversalSignalCache.ThreadSt.done p0 g0 →
        (UniversalSignalCache.run sched
            (UniversalSignalCache.initSys sig prot params)).th1
          = UniversalSignalCache.ThreadSt.done p1 g1 →
        p0 = p1
        ∧ 1 ≤ (UniversalSignalCache.run sched
            (UniversalSignalCache.initSys sig prot params)).shared.encoderCalls
        ∧ (UniversalSignalCache.run sched
            (UniversalSignalCache.initSys sig prot params)).shared.encoderCalls
            ≤ 2)
    ∧ ¬(UniversalSignalCache.lockedFlag
          (UniversalSignalCache.run sched
            (UniversalSignalCache.initSys sig prot params)).th0 = true
        ∧ UniversalSignalCache.lockedFlag
          (UniversalSignalCache.run sched
            (UniversalSignalCache.initSys sig prot params)).th1 = true)
    ∧ (∀ sh, (UniversalSignalCache.threadStep sh
          UniversalSignalCache.ThreadSt.preGen).2
        = UniversalSignalCache.ThreadSt.generated) := by
  obtain ⟨h1, h2, h3, h4, h5, h6, h7⟩ :=
    UniversalSignalCache.inv_run sched
      (UniversalSignalCache.inv_init sig prot params)
  refine ⟨?_, h7, fun sh => rfl⟩
  intro p0 g0 p1 g1 hd0 hd1
  obtain ⟨hp0, hg0⟩ := h3 p0 g0 hd0
  obtain ⟨hp1, hg1⟩ := h4 p1 g1 hd1
  refine ⟨hp0.trans hp1.symm, ?_, ?_⟩
  · cases g0 with
    | true =>
        rw [hd0] at h1
        simp [UniversalSignalCache.genFlag] at h1
        omega
    | false =>
        exact h2 (Or.inr (hg0 rfl))
  · rw [h1, hd0, hd1]
    have hb0 := UniversalSignalCache.genFlag_le_one
      (UniversalSignalCache.ThreadSt.done p0 g0)
    have hb1 := UniversalSignalCache.genFlag_le_one
      (UniversalSignalCache.ThreadSt.done p1 g1)
    omega

/-- Witness for `C2_single_flight_amended`: under the concrete duplicated
schedule both threads finish on the same path with one or two encoder
invocations. -/
theorem C2_single_flight_amended_witness :
    UniversalSignalCache.cexPath = UniversalSignalCache.cexPath
    ∧ 1 ≤ (UniversalSignalCache.run UniversalSignalCache.cexSched
        UniversalSignalCache.cexSys).shared.encoderCalls
    ∧ (UniversalSignalCache.run UniversalSignalCache.cexSched
        UniversalSignalCache.cexSys).shared.encoderCalls ≤ 2 :=
  (C2_single_flight_amended "elrs_915mhz" "elrs"
      UniversalSignalCache.cexParams UniversalSignalCache.cexSched).1
    UniversalSignalCache.cexPath true UniversalSignalCache.cexPath true rfl rfl
